import Mathlib

/-!
# Verification of the Pastella wallet key-derivation and address-codec engine

A shallow embedding, in Lean 4, of the wallet generator of the Pastella block
explorer (`src/utils/walletGenerator.ts` together with the address validator of
the shared helpers module), and proofs about it.

Modelling conventions:
* JavaScript `Uint8Array` buffers are `List Nat` whose entries are below 256;
  where a theorem needs that bound it carries it as a hypothesis.
* JavaScript functions that can `throw` are embedded as `Except Err _`; the
  boolean validators are total `Bool` functions, as in the source.
* JavaScript numbers appearing here are integers well below 2^53, so the
  source's floating-point arithmetic is exact and `Nat`/`Int` arithmetic is a
  faithful model; the 32-bit coercions performed by the JavaScript bitwise
  operators (`>>>`, `&`, `|`, `^`) are made explicit with `% 2^32`-style
  reductions.
* Loops are embedded as fuel-indexed structural recursions; every fuel value
  used strictly dominates the number of iterations the source loop can make on
  the corresponding input, so the out-of-fuel branch is unreachable.
-/

set_option maxRecDepth 200000

namespace Pastella

/-- The error kinds the engine can raise.  `rangeError` and `typeError` stand
for the `RangeError`/`TypeError` exceptions the JavaScript runtime itself
throws on out-of-bounds `DataView` construction and on `BigInt(undefined)`. -/
inductive Err where
  | invalidLength
  | unknownWord
  | encodingError
  | invalidChecksum
  | rangeError
  | typeError
  | entropyExhausted
  deriving DecidableEq, Repr

/-- The record returned by the wallet operations (`WalletData` in the source). -/
structure WalletData where
  address : String
  privateKey : String
  publicKey : String
  mnemonic : String
  deriving DecidableEq, Repr

deriving instance DecidableEq for Except

/-! ## Hex codecs (`bytesToHex`, `hexToBytes`) -/

/-- Lowercase hex digit for a value below 16 (as produced by `toString(16)`). -/
def hexChar (n : Nat) : Char :=
  if n < 10 then Char.ofNat (48 + n) else Char.ofNat (87 + n)

/-- The two characters `b.toString(16).padStart(2, zero)` yields for a byte. -/
def byteHexChars (b : Nat) : List Char :=
  if b < 16 then ['0', hexChar b] else [hexChar (b / 16), hexChar (b % 16)]

/-- `bytesToHex`: map each byte to its zero-padded lowercase hex pair and join. -/
def bytesToHex (bytes : List Nat) : String :=
  String.mk ((bytes.map byteHexChars).flatten)

/-- Value of one hex digit, `none` when the character is not a hex digit
(`parseInt` would not consume it). -/
def hexDigitVal (c : Char) : Option Nat :=
  if '0' ≤ c ∧ c ≤ '9' then some (c.toNat - 48)
  else if 'a' ≤ c ∧ c ≤ 'f' then some (c.toNat - 87)
  else if 'A' ≤ c ∧ c ≤ 'F' then some (c.toNat - 55)
  else none

/-- `parseInt(two-character string, 16)` followed by the `Uint8Array` store:
`NaN` is stored as 0; a valid first digit with an invalid second digit parses
as the one-digit prefix.  (The model ignores `parseInt` fringe cases such as
leading whitespace or a `0x` prefix; the theorems about hex input only invoke
this on hex-digit characters, where the model is exact.) -/
def jsParseIntPair (c1 c2 : Char) : Nat :=
  match hexDigitVal c1 with
  | none => 0
  | some v1 =>
    match hexDigitVal c2 with
    | none => v1
    | some v2 => 16 * v1 + v2

/-- The byte list `hexToBytes` builds from an even-length character list; an
odd trailing character would be read as a one-character `substr`. -/
def hexPairs : List Char → List Nat
  | [] => []
  | [c] => [jsParseIntPair c c]
  | c1 :: c2 :: rest => jsParseIntPair c1 c2 :: hexPairs rest

/-- Total core of `hexToBytes` (the loop body, for even-length input). -/
def hexBytesOf (s : String) : List Nat :=
  hexPairs s.toList

/-- `hexToBytes`: `new Uint8Array(hex.length / 2)` throws a `RangeError` when
`hex.length / 2` is not an integer, otherwise the loop fills the buffer with
the parsed pairs. -/
def hexToBytes (hex : String) : Except Err (List Nat) :=
  if hex.length % 2 ≠ 0 then .error .rangeError
  else .ok (hexBytesOf hex)

/-! ## Varint codec (`encodeVarint`) -/

/-- Body of the `while (num >= 0x80)` loop of `encodeVarint`.  The JavaScript
bitwise operators coerce: `num & 0x7f` is the low 7 bits of `num mod 2^32`
(hence `emod 128` on integral input), `| 0x80` sets the continuation bit, and
`num >>>= 7` is `ToUint32(num) >> 7` (hence `emod 2^32` then division).
Fuel 64 strictly dominates the iteration count for every integral double
(at most one truncating step followed by at most five 7-bit steps). -/
def encodeVarintGo : Nat → Int → List Nat
  | 0, num => [(num.emod 256).toNat]
  | fuel + 1, num =>
    if num < 128 then [(num.emod 256).toNat]
    else ((num.emod 128) + 128).toNat :: encodeVarintGo fuel ((num.emod (2 ^ 32)) / 128)

/-- `encodeVarint` from the source: emit continuation bytes while `num >= 0x80`,
then push `num & 0xff`.  Note the source performs no sign check. -/
def encodeVarint (num : Int) : List Nat :=
  encodeVarintGo 64 num

/-- Modelled from the spec: "emits groups of 7 bits, least-significant group
first; every byte except the last has the high bit set" (spec §4.1).  Written
as a second definition, to be compared with `encodeVarint` from the source. -/
def varintSpecGo : Nat → Nat → List Nat
  | 0, n => [n]
  | fuel + 1, n => if n < 128 then [n] else (n % 128 + 128) :: varintSpecGo fuel (n / 128)

/-- Spec-side varint encoding of a non-negative integer. -/
def varintSpec (n : Nat) : List Nat :=
  varintSpecGo 64 n

/-! ## Base58 block codec (`base58Encode`, `uint8BeToBigInt`) -/

/-- The fixed Base58 alphabet of the source. -/
def BASE58_ALPHABET : List Char :=
  "123456789ABCDEFGHJKLMNPQRSTUVWXYZabcdefghijkmnopqrstuvwxyz".toList

/-- `ENCODED_BLOCK_SIZES` from the source. -/
def ENCODED_BLOCK_SIZES : List Nat := [0, 2, 3, 5, 6, 7, 9, 10, 11]

/-- `uint8BeToBigInt`: big-endian accumulation `num = (num << 8) | byte`. -/
def beNat (block : List Nat) : Nat :=
  block.foldl (fun n b => (n <<< 8) ||| b) 0

/-- Base-58 digits of `num`, least significant first, as produced by the
`while (num > 0n)` division loop.  Fuel bounds the digit count. -/
def b58DigitsLE : Nat → Nat → List Nat
  | 0, _ => []
  | fuel + 1, num => if num = 0 then [] else num % 58 :: b58DigitsLE fuel (num / 58)

/-- Encode one block: the result slot of width `ENCODED_BLOCK_SIZES[len]` is
prefilled with the zero character and the base-58 digits are written right to
left.  (The source writes the digits of the full block value from the
rightmost slot leftwards; digits beyond the slot width would land at negative
array indices, which `join` ignores, so only the low
`ENCODED_BLOCK_SIZES[len]` digits appear — computed here by reducing the value
`mod 58 ^ width` first, which yields the same characters.) -/
def encodeBlock (block : List Nat) : List Char :=
  let width := ENCODED_BLOCK_SIZES.getD block.length 0
  let ds := b58DigitsLE width (beNat block % 58 ^ width)
  List.replicate (width - ds.length) '1' ++ (ds.reverse.map (fun d => BASE58_ALPHABET.getD d '1'))

/-- Split a list into chunks of `sz` elements (the last chunk may be shorter),
mirroring the full-block / last-block split of `base58Encode`.  The fuel is
instantiated with the list length, which dominates the chunk count. -/
def chunksOf (sz : Nat) : Nat → List Nat → List (List Nat)
  | 0, _ => []
  | _, [] => []
  | fuel + 1, l => l.take sz :: chunksOf sz fuel (l.drop sz)

/-- `base58Encode`: encode the 8-byte full blocks, then the partial last block.
An empty buffer encodes to the empty string. -/
def base58Encode (buffer : List Nat) : String :=
  String.mk (((chunksOf 8 buffer.length buffer).map encodeBlock).flatten)

/-! ## Wordlist -/

/-- The 1626-word mnemonic dictionary, transcribed verbatim from `WORDLIST` in
`src/utils/walletGenerator.ts`. -/
def WORDLIST : List String :=
  ["abbey", "abducts", "ability", "ablaze", "abnormal", "abort", "abrasive", "absorb",
   "abyss", "academy", "aces", "aching", "acidic", "acoustic", "acquire", "across",
   "actress", "acumen", "adapt", "addicted", "adept", "adhesive", "adjust", "adopt",
   "adrenalin", "adult", "adventure", "aerial", "afar", "affair", "afield", "afloat",
   "afoot", "afraid", "after", "against", "agenda", "aggravate", "agile", "aglow",
   "agnostic", "agony", "agreed", "ahead", "aided", "ailments", "aimless", "airport",
   "aisle", "ajar", "akin", "alarms", "album", "alchemy", "alerts", "algebra",
   "alkaline", "alley", "almost", "aloof", "alpine", "already", "also", "altitude",
   "alumni", "always", "amaze", "ambush", "amended", "amidst", "ammo", "amnesty",
   "among", "amply", "amused", "anchor", "android", "anecdote", "angled", "ankle",
   "annoyed", "answers", "antics", "anvil", "anxiety", "anybody", "apart", "apex",
   "aphid", "aplomb", "apology", "apply", "apricot", "aptitude", "aquarium", "arbitrary",
   "archer", "ardent", "arena", "argue", "arises", "army", "around", "arrow",
   "arsenic", "artistic", "ascend", "ashtray", "aside", "asked", "asleep", "aspire",
   "assorted", "asylum", "athlete", "atlas", "atom", "atrium", "attire", "auburn",
   "auctions", "audio", "august", "aunt", "austere", "autumn", "avatar", "avidly",
   "avoid", "awakened", "awesome", "awful", "awkward", "awning", "awoken", "axes",
   "axis", "axle", "aztec", "azure", "baby", "bacon", "badge", "baffles",
   "bagpipe", "bailed", "bakery", "balding", "bamboo", "banjo", "baptism", "basin",
   "batch", "bawled", "bays", "because", "beer", "befit", "begun", "behind",
   "being", "below", "bemused", "benches", "berries", "bested", "betting", "bevel",
   "beware", "beyond", "bias", "bicycle", "bids", "bifocals", "biggest", "bikini",
   "bimonthly", "binocular", "biology", "biplane", "birth", "biscuit", "bite", "biweekly",
   "blender", "blip", "bluntly", "boat", "bobsled", "bodies", "bogeys", "boil",
   "boldly", "bomb", "border", "boss", "both", "bounced", "bovine", "bowling",
   "boxes", "boyfriend", "broken", "brunt", "bubble", "buckets", "budget", "buffet",
   "bugs", "building", "bulb", "bumper", "bunch", "business", "butter", "buying",
   "buzzer", "bygones", "byline", "bypass", "cabin", "cactus", "cadets", "cafe",
   "cage", "cajun", "cake", "calamity", "camp", "candy", "casket", "catch",
   "cause", "cavernous", "cease", "cedar", "ceiling", "cell", "cement", "cent",
   "certain", "chlorine", "chrome", "cider", "cigar", "cinema", "circle", "cistern",
   "citadel", "civilian", "claim", "click", "clue", "coal", "cobra", "cocoa",
   "code", "coexist", "coffee", "cogs", "cohesive", "coils", "colony", "comb",
   "cool", "copy", "corrode", "costume", "cottage", "cousin", "cowl", "criminal",
   "cube", "cucumber", "cuddled", "cuffs", "cuisine", "cunning", "cupcake", "custom",
   "cycling", "cylinder", "cynical", "dabbing", "dads", "daft", "dagger", "daily",
   "damp", "dangerous", "dapper", "darted", "dash", "dating", "dauntless", "dawn",
   "daytime", "dazed", "debut", "decay", "dedicated", "deepest", "deftly", "degrees",
   "dehydrate", "deity", "dejected", "delayed", "demonstrate", "dented", "deodorant", "depth",
   "desk", "devoid", "dewdrop", "dexterity", "dialect", "dice", "diet", "different",
   "digit", "dilute", "dime", "dinner", "diode", "diplomat", "directed", "distance",
   "ditch", "divers", "dizzy", "doctor", "dodge", "does", "dogs", "doing",
   "dolphin", "domestic", "donuts", "doorway", "dormant", "dosage", "dotted", "double",
   "dove", "down", "dozen", "dreams", "drinks", "drowning", "drunk", "drying",
   "dual", "dubbed", "duckling", "dude", "duets", "duke", "dullness", "dummy",
   "dunes", "duplex", "duration", "dusted", "duties", "dwarf", "dwelt", "dwindling",
   "dying", "dynamite", "dyslexic", "each", "eagle", "earth", "easy", "eating",
   "eavesdrop", "eccentric", "echo", "eclipse", "economics", "ecstatic", "eden", "edgy",
   "edited", "educated", "eels", "efficient", "eggs", "egotistic", "eight", "either",
   "eject", "elapse", "elbow", "eldest", "eleven", "elite", "elope", "else",
   "eluded", "emails", "ember", "emerge", "emit", "emotion", "empty", "emulate",
   "energy", "enforce", "enhanced", "enigma", "enjoy", "enlist", "enmity", "enough",
   "enraged", "ensign", "entrance", "envy", "epoxy", "equip", "erase", "erected",
   "erosion", "error", "eskimos", "espionage", "essential", "estate", "etched", "eternal",
   "ethics", "etiquette", "evaluate", "evenings", "evicted", "evolved", "examine", "excess",
   "exhale", "exit", "exotic", "exquisite", "extra", "exult", "fabrics", "factual",
   "fading", "fainted", "faked", "fall", "family", "fancy", "farming", "fatal",
   "faulty", "fawns", "faxed", "fazed", "feast", "february", "federal", "feel",
   "feline", "females", "fences", "ferry", "festival", "fetches", "fever", "fewest",
   "fiat", "fibula", "fictional", "fidget", "fierce", "fifteen", "fight", "films",
   "firm", "fishing", "fitting", "five", "fixate", "fizzle", "fleet", "flippant",
   "flying", "foamy", "focus", "foes", "foggy", "foiled", "folding", "fonts",
   "foolish", "fossil", "fountain", "fowls", "foxes", "foyer", "framed", "friendly",
   "frown", "fruit", "frying", "fudge", "fuel", "fugitive", "fully", "fuming",
   "fungal", "furnished", "fuselage", "future", "fuzzy", "gables", "gadget", "gags",
   "gained", "galaxy", "gambit", "gang", "gasp", "gather", "gauze", "gave",
   "gawk", "gaze", "gearbox", "gecko", "geek", "gels", "gemstone", "general",
   "geometry", "germs", "gesture", "getting", "geyser", "ghetto", "ghost", "giant",
   "giddy", "gifts", "gigantic", "gills", "gimmick", "ginger", "girth", "giving",
   "glass", "gleeful", "glide", "gnaw", "gnome", "goat", "goblet", "godfather",
   "goes", "goggles", "going", "goldfish", "gone", "goodbye", "gopher", "gorilla",
   "gossip", "gotten", "gourmet", "governing", "gown", "greater", "grunt", "guarded",
   "guest", "guide", "gulp", "gumball", "guru", "gusts", "gutter", "guys",
   "gymnast", "gypsy", "gyrate", "habitat", "hacksaw", "haggled", "hairy", "hamburger",
   "happens", "hashing", "hatchet", "haunted", "having", "hawk", "haystack", "hazard",
   "hectare", "hedgehog", "heels", "hefty", "height", "hemlock", "hence", "heron",
   "hesitate", "hexagon", "hickory", "hiding", "highway", "hijack", "hiker", "hills",
   "himself", "hinder", "hippo", "hire", "history", "hitched", "hive", "hoax",
   "hobby", "hockey", "hoisting", "hold", "honked", "hookup", "hope", "hornet",
   "hospital", "hotel", "hounded", "hover", "howls", "hubcaps", "huddle", "huge",
   "hull", "humid", "hunter", "hurried", "husband", "huts", "hybrid", "hydrogen",
   "hyper", "iceberg", "icing", "icon", "identity", "idiom", "idled", "idols",
   "igloo", "ignore", "iguana", "illness", "imagine", "imbalance", "imitate", "impel",
   "inactive", "inbound", "incur", "industrial", "inexact", "inflamed", "ingested", "initiate",
   "injury", "inkling", "inline", "inmate", "innocent", "inorganic", "input", "inquest",
   "inroads", "insult", "intended", "inundate", "invoke", "inwardly", "ionic", "irate",
   "iris", "irony", "irritate", "island", "isolated", "issued", "italics", "itches",
   "items", "itinerary", "itself", "ivory", "jabbed", "jackets", "jaded", "jagged",
   "jailed", "jamming", "january", "jargon", "jaunt", "javelin", "jaws", "jazz",
   "jeans", "jeers", "jellyfish", "jeopardy", "jerseys", "jester", "jetting", "jewels",
   "jigsaw", "jingle", "jittery", "jive", "jobs", "jockey", "jogger", "joining",
   "joking", "jolted", "jostle", "journal", "joyous", "jubilee", "judge", "juggled",
   "juicy", "jukebox", "july", "jump", "junk", "jury", "justice", "juvenile",
   "kangaroo", "karate", "keep", "kennel", "kept", "kernels", "kettle", "keyboard",
   "kickoff", "kidneys", "king", "kiosk", "kisses", "kitchens", "kiwi", "knapsack",
   "knee", "knife", "knowledge", "knuckle", "koala", "laboratory", "ladder", "lagoon",
   "lair", "lakes", "lamb", "language", "laptop", "large", "last", "later",
   "launching", "lava", "lawsuit", "layout", "lazy", "lectures", "ledge", "leech",
   "left", "legion", "leisure", "lemon", "lending", "leopard", "lesson", "lettuce",
   "lexicon", "liar", "library", "licks", "lids", "lied", "lifestyle", "light",
   "likewise", "lilac", "limits", "linen", "lion", "lipstick", "liquid", "listen",
   "lively", "loaded", "lobster", "locker", "lodge", "lofty", "logic", "loincloth",
   "long", "looking", "lopped", "lordship", "losing", "lottery", "loudly", "love",
   "lower", "loyal", "lucky", "luggage", "lukewarm", "lullaby", "lumber", "lunar",
   "lurk", "lush", "luxury", "lymph", "lynx", "lyrics", "macro", "madness",
   "magically", "mailed", "major", "makeup", "malady", "mammal", "maps", "masterful",
   "match", "maul", "maverick", "maximum", "mayor", "maze", "meant", "mechanic",
   "medicate", "meeting", "megabyte", "melting", "memoir", "menu", "merger", "mesh",
   "metro", "mews", "mice", "midst", "mighty", "mime", "mirror", "misery",
   "mittens", "mixture", "moat", "mobile", "mocked", "mohawk", "moisture", "molten",
   "moment", "money", "moon", "mops", "morsel", "mostly", "motherly", "mouth",
   "movement", "mowing", "much", "muddy", "muffin", "mugged", "mullet", "mumble",
   "mundane", "muppet", "mural", "musical", "muzzle", "myriad", "mystery", "myth",
   "nabbing", "nagged", "nail", "names", "nanny", "napkin", "narrate", "nasty",
   "natural", "nautical", "navy", "nearby", "necklace", "needed", "negative", "neither",
   "neon", "nephew", "nerves", "nestle", "network", "neutral", "never", "newt",
   "nexus", "nibs", "niche", "niece", "nifty", "nightly", "nimbly", "nineteen",
   "nirvana", "nitrogen", "nobody", "nocturnal", "nodes", "noises", "nomad", "noodles",
   "northern", "nostril", "noted", "nouns", "novelty", "nowhere", "nozzle", "nuance",
   "nucleus", "nudged", "nugget", "nuisance", "null", "number", "nuns", "nurse",
   "nutshell", "nylon", "oaks", "oars", "oasis", "oatmeal", "obedient", "object",
   "obliged", "obnoxious", "observant", "obtains", "obvious", "occur", "ocean", "october",
   "odds", "odometer", "offend", "often", "oilfield", "ointment", "okay", "older",
   "olive", "olympics", "omega", "omission", "omnibus", "onboard", "oncoming", "oneself",
   "ongoing", "onion", "online", "onslaught", "onto", "onward", "oozed", "opacity",
   "opened", "opposite", "optical", "opus", "orange", "orbit", "orchid", "orders",
   "organs", "origin", "ornament", "orphans", "oscar", "ostrich", "otherwise", "otter",
   "ouch", "ought", "ounce", "ourselves", "oust", "outbreak", "oval", "oven",
   "owed", "owls", "owner", "oxidant", "oxygen", "oyster", "ozone", "pact",
   "paddles", "pager", "pairing", "palace", "pamphlet", "pancakes", "paper", "paradise",
   "pastry", "patio", "pause", "pavements", "pawnshop", "payment", "peaches", "pebbles",
   "peculiar", "pedantic", "peeled", "pegs", "pelican", "pencil", "people", "pepper",
   "perfect", "pests", "petals", "phase", "pheasants", "phone", "phrases", "physics",
   "piano", "picked", "pierce", "pigment", "piloted", "pimple", "pinched", "pioneer",
   "pipeline", "pirate", "pistons", "pitched", "pivot", "pixels", "pizza", "playful",
   "pledge", "pliers", "plotting", "plus", "plywood", "poaching", "pockets", "podcast",
   "poetry", "point", "poker", "polar", "ponies", "pool", "popular", "portents",
   "possible", "potato", "pouch", "poverty", "powder", "pram", "present", "pride",
   "problems", "pruned", "prying", "psychic", "public", "puck", "puddle", "puffin",
   "pulp", "pumpkins", "punch", "puppy", "purged", "push", "putty", "puzzled",
   "pylons", "pyramid", "python", "queen", "quick", "quote", "rabbits", "racetrack",
   "radar", "rafts", "rage", "railway", "raking", "rally", "ramped", "randomly",
   "rapid", "rarest", "rash", "rated", "ravine", "rays", "razor", "react",
   "rebel", "recipe", "reduce", "reef", "refer", "regular", "reheat", "reinvest",
   "rejoices", "rekindle", "relic", "remedy", "renting", "reorder", "repent", "request",
   "reruns", "rest", "return", "reunion", "revamp", "rewind", "rhino", "rhythm",
   "ribbon", "richly", "ridges", "rift", "rigid", "rims", "ringing", "riots",
   "ripped", "rising", "ritual", "river", "roared", "robot", "rockets", "rodent",
   "rogue", "roles", "romance", "roomy", "roped", "roster", "rotate", "rounded",
   "rover", "rowboat", "royal", "ruby", "rudely", "ruffled", "rugged", "ruined",
   "ruling", "rumble", "runway", "rural", "rustled", "ruthless", "sabotage", "sack",
   "sadness", "safety", "saga", "sailor", "sake", "salads", "sample", "sanity",
   "sapling", "sarcasm", "sash", "satin", "saucepan", "saved", "sawmill", "saxophone",
   "sayings", "scamper", "scenic", "school", "science", "scoop", "scrub", "scuba",
   "seasons", "second", "sedan", "seeded", "segments", "seismic", "selfish", "semifinal",
   "sensible", "september", "sequence", "serving", "session", "setup", "seventh", "sewage",
   "shackles", "shelter", "shipped", "shocking", "shrugged", "shuffled", "shyness", "siblings",
   "sickness", "sidekick", "sieve", "sifting", "sighting", "silk", "simplest", "sincerely",
   "sipped", "siren", "situated", "sixteen", "sizes", "skater", "skew", "skirting",
   "skulls", "skydive", "slackens", "sleepless", "slid", "slower", "slug", "smash",
   "smelting", "smidgen", "smog", "smuggled", "snake", "sneeze", "sniff", "snout",
   "snug", "soapy", "sober", "soccer", "soda", "software", "soggy", "soil",
   "solved", "somewhere", "sonic", "soothe", "soprano", "sorry", "southern", "sovereign",
   "sowed", "soya", "space", "speedy", "sphere", "spiders", "splendid", "spout",
   "sprig", "spud", "spying", "square", "stacking", "stellar", "stick", "stockpile",
   "strained", "stunning", "stylishly", "subtly", "succeed", "suddenly", "suede", "suffice",
   "sugar", "suitcase", "sulking", "summon", "sunken", "superior", "surfer", "sushi",
   "suture", "swagger", "swept", "swiftly", "sword", "swung", "syllabus", "symptoms",
   "syndrome", "syringe", "system", "taboo", "tacit", "tadpoles", "tagged", "tail",
   "taken", "talent", "tamper", "tanks", "tapestry", "tarnished", "tasked", "tattoo",
   "taunts", "tavern", "tawny", "taxi", "teardrop", "technical", "tedious", "teeming",
   "tell", "template", "tender", "tepid", "tequila", "terminal", "testing", "tether",
   "textbook", "thaw", "theatrics", "thirsty", "thorn", "threaten", "thumbs", "thwart",
   "ticket", "tidy", "tiers", "tiger", "tilt", "timber", "tinted", "tipsy",
   "tirade", "tissue", "titans", "toaster", "tobacco", "today", "toenail", "toffee",
   "together", "toilet", "token", "tolerant", "tomorrow", "tonic", "toolbox", "topic",
   "torch", "tossed", "total", "touchy", "towel", "toxic", "toyed", "trash",
   "trendy", "tribal", "trolling", "truth", "trying", "tsunami", "tubes", "tucks",
   "tudor", "tuesday", "tufts", "tugs", "tuition", "tulips", "tumbling", "tunnel",
   "turnip", "tusks", "tutor", "tuxedo", "twang", "tweezers", "twice", "twofold",
   "tycoon", "typist", "tyrant", "ugly", "ulcers", "ultimate", "umbrella", "umpire",
   "unafraid", "unbending", "uncle", "under", "uneven", "unfit", "ungainly", "unhappy",
   "union", "unjustly", "unknown", "unlikely", "unmask", "unnoticed", "unopened", "unplugs",
   "unquoted", "unrest", "unsafe", "until", "unusual", "unveil", "unwind", "unzip",
   "upbeat", "upcoming", "update", "upgrade", "uphill", "upkeep", "upload", "upon",
   "upper", "upright", "upstairs", "uptight", "upwards", "urban", "urchins", "urgent",
   "usage", "useful", "usher", "using", "usual", "utensils", "utility", "utmost",
   "utopia", "uttered", "vacation", "vague", "vain", "value", "vampire", "vane",
   "vapidly", "vary", "vastness", "vats", "vaults", "vector", "veered", "vegan",
   "vehicle", "vein", "velvet", "venomous", "verification", "vessel", "veteran", "vexed",
   "vials", "vibrate", "victim", "video", "viewpoint", "vigilant", "viking", "village",
   "vinegar", "violin", "vipers", "virtual", "visited", "vitals", "vivid", "vixen",
   "vocal", "vogue", "voice", "volcano", "vortex", "voted", "voucher", "vowels",
   "voyage", "vulture", "wade", "waffle", "wagtail", "waist", "waking", "wallets",
   "wanted", "warped", "washing", "water", "waveform", "waxing", "wayside", "weavers",
   "website", "wedge", "weekday", "weird", "welders", "went", "wept", "were",
   "western", "wetsuit", "whale", "when", "whipped", "whole", "wickets", "width",
   "wield", "wife", "wiggle", "wildly", "winter", "wipeout", "wiring", "wise",
   "withdrawn", "wives", "wizard", "wobbly", "woes", "woken", "wolf", "womanly",
   "wonders", "woozy", "worry", "wounded", "woven", "wrap", "wrist", "wrong",
   "yacht", "yahoo", "yanks", "yard", "yawning", "yearbook", "yellow", "yesterday",
   "yeti", "yields", "yodel", "yoga", "younger", "yoyo", "zapped", "zeal",
   "zebra", "zero", "zesty", "zigzags", "zinger", "zippers", "zodiac", "zombie",
   "zones", "zoom"]

/-! ## CRC32 (`crc32`) -/

/-- One entry of the CRC32 table: eight conditional-xor halving steps starting
from the byte index.  (The source rebuilds the whole table on every call; the
entries are the same values.) -/
def crcTableEntry (i : Nat) : Nat :=
  (List.range 8).foldl
    (fun crc _ => if crc % 2 = 1 then 0xEDB88320 ^^^ (crc / 2) else crc / 2) i

/-- `crc32` over a string: start from `0xFFFFFFFF`, combine each UTF-16 code
unit (all characters here are ASCII) through the table, complement at the end.
All intermediate values stay below 2^32, so the JavaScript 32-bit coercions
are identities. -/
def crc32 (s : String) : Nat :=
  (s.toList.foldl
    (fun crc c => (crc / 256) ^^^ crcTableEntry ((crc ^^^ c.toNat) % 256))
    0xFFFFFFFF) ^^^ 0xFFFFFFFF

/-! ## Splitting and joining mnemonics

`mnemonic.trim().split(/\s+/)` returns the maximal runs of non-whitespace
characters of the string (for a string that is all whitespace it returns a
single empty string where this model returns no words; both fail the
length-25 tests through which every use of the split is routed, so the
observable behaviour agrees).  `words.join(' ')` intersperses single spaces.
-/

/-- Maximal runs of non-whitespace characters.  The fuel is instantiated with
the character count, which dominates the iteration count. -/
def wordsGo : Nat → List Char → List (List Char)
  | 0, _ => []
  | _ + 1, [] => []
  | fuel + 1, c :: rest =>
    if c.isWhitespace then wordsGo fuel rest
    else (c :: rest.takeWhile (fun d => !d.isWhitespace)) ::
      wordsGo fuel (rest.dropWhile (fun d => !d.isWhitespace))

/-- `s.trim().split(/\s+/)` as a list of words. -/
def jsWords (s : String) : List String :=
  (wordsGo s.toList.length s.toList).map String.mk

/-- `words.join(' ')` at the character level. -/
def joinChars : List (List Char) → List Char
  | [] => []
  | [w] => w
  | w :: rest => w ++ ' ' :: joinChars rest

/-- `words.join(' ')`. -/
def joinWords (ws : List String) : String :=
  String.mk (joinChars (ws.map String.toList))

/-! ## Mnemonic codec -/

/-- The empty string (named so that later definitions need no inline string
literal in argument position). -/
def emptyString : String := ""

/-- `getWordIndex`: `WORDLIST.indexOf(word)`, throwing when the word is
absent.  (`List.indexOf` returns the list length where JavaScript returns
`-1`; both are the not-found case.) -/
def getWordIndex (word : String) : Except Err Nat :=
  let index := WORDLIST.indexOf word
  if index < WORDLIST.length then .ok index else .error .unknownWord

/-- The four little-endian bytes `setUint32(0, val, true)` stores; the store
wraps `val` to 32 bits. -/
def uint32LeBytes (val : Nat) : List Nat :=
  [val % 256, val / 256 % 256, val / 65536 % 256, val / 16777216 % 256]

/-- The 8-iteration loop of `mnemonicToPrivateKey`: three words at a time,
rebuild `val`, check reversibility, emit 4 little-endian bytes.  The source
iterates `i = 0, 3, …, 21` over exactly 24 words, so the argument always
splits into triples; a leftover of one or two words would read `undefined`,
whose `indexOf` is `-1`, hence the same word-not-found throw. -/
def wordsToBytes : List String → Except Err (List Nat)
  | [] => .ok []
  | w1 :: w2 :: w3 :: rest => do
    let i1 ← getWordIndex w1
    let i2 ← getWordIndex w2
    let i3 ← getWordIndex w3
    let wlLen := 1626
    let val := i1 + wlLen * (((wlLen - i1) + i2) % wlLen) +
      wlLen * wlLen * (((wlLen - i2) + i3) % wlLen)
    if val % wlLen ≠ i1 then .error .encodingError
    else do
      let restBytes ← wordsToBytes rest
      .ok (uint32LeBytes val ++ restBytes)
  | _ => .error .unknownWord

/-- `mnemonicToPrivateKey`: split, require exactly 25 words, decode the first
24 in triples. -/
def mnemonicToPrivateKey (mnemonic : String) : Except Err (List Nat) :=
  let words := jsWords mnemonic
  if words.length ≠ 25 then .error .invalidLength
  else wordsToBytes (words.take 24)

/-- `calculateChecksumWord`: concatenate `substr(0, 3)` of every word, CRC32
that string, and pick the word at index `crc mod 24`. -/
def calculateChecksumWord (words : List String) : String :=
  let trimmed := String.mk ((words.map (fun w => w.toList.take 3)).flatten)
  words.getD (crc32 trimmed % 24) emptyString

/-- The 8-iteration encode loop of `privateKeyToMnemonic`: four bytes at a
time, read a little-endian `uint32`, split into three word indices. -/
def seedToWords : List Nat → List String
  | b0 :: b1 :: b2 :: b3 :: rest =>
    let wlLen := 1626
    let val := b0 + 256 * b1 + 65536 * b2 + 16777216 * b3
    let w1 := val % wlLen
    let w2 := (val / wlLen + w1) % wlLen
    let w3 := (val / wlLen / wlLen + w2) % wlLen
    WORDLIST.getD w1 emptyString :: WORDLIST.getD w2 emptyString ::
      WORDLIST.getD w3 emptyString :: seedToWords rest
  | _ => []

/-- `privateKeyToMnemonic`: 24 data words from the 32 seed bytes, then the
checksum word, joined with spaces.  `new DataView(buffer, i, 4)` throws a
`RangeError` when the buffer holds fewer than `i + 4` bytes, i.e. when the
seed is shorter than 32 bytes. -/
def privateKeyToMnemonic (privateKeyBytes : List Nat) : Except Err String :=
  if privateKeyBytes.length < 32 then .error .rangeError
  else
    let words := seedToWords (privateKeyBytes.take 32)
    .ok (joinWords (words ++ [calculateChecksumWord words]))

/-- `verifyMnemonicChecksum`: false unless exactly 25 words whose 25th equals
the checksum word recomputed from the first 24. -/
def verifyMnemonicChecksum (mnemonic : String) : Bool :=
  let words := jsWords mnemonic
  if words.length ≠ 25 then false
  else calculateChecksumWord (words.take 24) == words.getD 24 emptyString

/-! ## Keccak-256 (the `js-sha3` dependency's `keccak256`)

The `keccak256` import is the standard pre-SHA-3 Keccak-256 (rate 1088,
capacity 512, multi-rate `10*1` padding with marker byte `0x01`), embedded
here in full; the library itself is not part of the repository. -/

/-- 64-bit rotate left. -/
def rotl64 (x n : Nat) : Nat :=
  ((x <<< n) ||| (x >>> (64 - n))) % 2 ^ 64

/-- One step of the degree-8 LFSR generating the round-constant bits
(polynomial x^8 + x^6 + x^5 + x^4 + 1). -/
def rcStep (r : Nat) : Nat :=
  let s := r * 2
  if 256 ≤ s then s ^^^ 0x171 else s

/-- The LFSR state after `t` steps, starting from 1. -/
def rcIter : Nat → Nat
  | 0 => 1
  | t + 1 => rcStep (rcIter t)

/-- Keccak round constant for round `i`. -/
def keccakRC (i : Nat) : Nat :=
  (List.range 7).foldl (fun acc j => acc ||| ((rcIter (7 * i + j) % 2) <<< (2 ^ j - 1))) 0

/-- The ρ rotation offsets, generated by the standard (x, y) ↦ (y, 2x+3y)
walk; entry `(laneIndex, offset)` with lane (x, y) at index `x + 5y`. -/
def rhoTable : List (Nat × Nat) :=
  ((List.range 24).foldl
    (fun st t =>
      let x := st.1.1
      let y := st.1.2
      ((y, (2 * x + 3 * y) % 5), (x + 5 * y, (t + 1) * (t + 2) / 2 % 64) :: st.2))
    ((1, 0), [])).2

/-- Rotation offset of lane `i` (lane 0 rotates by 0). -/
def rhoOff (i : Nat) : Nat :=
  (rhoTable.lookup i).getD 0

/-- θ step. -/
def keccakTheta (A : List Nat) : List Nat :=
  let C := (List.range 5).map (fun x =>
    A.getD x 0 ^^^ A.getD (x + 5) 0 ^^^ A.getD (x + 10) 0 ^^^
      A.getD (x + 15) 0 ^^^ A.getD (x + 20) 0)
  let D := (List.range 5).map (fun x =>
    C.getD ((x + 4) % 5) 0 ^^^ rotl64 (C.getD ((x + 1) % 5) 0) 1)
  (List.range 25).map (fun i => A.getD i 0 ^^^ D.getD (i % 5) 0)

/-- Combined ρ and π steps: lane (x, y) lands rotated at (y, 2x + 3y). -/
def keccakRhoPi (A : List Nat) : List Nat :=
  (List.range 25).foldl
    (fun B i =>
      let x := i % 5
      let y := i / 5
      B.set (y + 5 * ((2 * x + 3 * y) % 5)) (rotl64 (A.getD i 0) (rhoOff i)))
    (List.replicate 25 0)

/-- χ step (complement realised as xor with the all-ones 64-bit lane). -/
def keccakChi (B : List Nat) : List Nat :=
  (List.range 25).map (fun i =>
    let x := i % 5
    let y := i / 5
    B.getD i 0 ^^^
      ((B.getD ((x + 1) % 5 + 5 * y) 0 ^^^ 0xFFFFFFFFFFFFFFFF) &&& B.getD ((x + 2) % 5 + 5 * y) 0))

/-- The 24-round Keccak-f[1600] permutation on the 25-lane state. -/
def keccakF (A : List Nat) : List Nat :=
  (List.range 24).foldl
    (fun A i =>
      let B := keccakChi (keccakRhoPi (keccakTheta A))
      B.set 0 (B.getD 0 0 ^^^ keccakRC i))
    A

/-- Multi-rate padding to a multiple of the 136-byte rate, marker `0x01`. -/
def keccakPad (msg : List Nat) : List Nat :=
  let padLen := 136 - msg.length % 136
  if padLen = 1 then msg ++ [0x81]
  else msg ++ 0x01 :: List.replicate (padLen - 2) 0 ++ [0x80]

/-- A 64-bit lane from up to eight little-endian bytes. -/
def laneFromBytes (bytes : List Nat) : Nat :=
  bytes.foldr (fun b acc => acc * 256 + b) 0

/-- Absorb one 136-byte block into the state and permute. -/
def absorbBlock (state block : List Nat) : List Nat :=
  let lanes := (chunksOf 8 block.length block).map laneFromBytes
  keccakF ((List.range 25).map (fun i => state.getD i 0 ^^^ lanes.getD i 0))

/-- The eight little-endian bytes of a 64-bit lane. -/
def laneBytes (x : Nat) : List Nat :=
  (List.range 8).map (fun j => x / 256 ^ j % 256)

/-- Keccak-256 digest: absorb the padded message, squeeze the first 32 bytes
(lanes 0 to 3). -/
def keccak256Digest (msg : List Nat) : List Nat :=
  let padded := keccakPad msg
  let state := (chunksOf 136 padded.length padded).foldl absorbBlock (List.replicate 25 0)
  (((List.range 4).map (fun i => state.getD i 0)).map laneBytes).flatten

/-- `keccak256` as the source consumes it: a lowercase hex string. -/
def keccak256 (msg : List Nat) : String :=
  bytesToHex (keccak256Digest msg)

/-! ## Ed25519 (the `@noble/ed25519` dependency)

Modelled from the spec: `Ed25519.Point.BASE.multiply(scalar)` is "raw
scalar multiplication" computing `publicPoint = scalar * BASE_POINT` on the
Ed25519 curve "with no key-clamping and no pre-hashing" (spec §4.3-§4.4);
the library itself is not part of the repository.  The curve constants are
derived, not transcribed: d = -121665/121666 and the base point has
y = 4/5 with even x. -/

/-- The Ed25519 field prime 2^255 - 19. -/
def pEd : Nat := 2 ^ 255 - 19

/-- Binary modular exponentiation (fuel 256 dominates every exponent used,
all below 2^256). -/
def powModGo : Nat → Nat → Nat → Nat → Nat
  | 0, _, _, m => 1 % m
  | fuel + 1, b, e, m =>
    if e = 0 then 1 % m
    else
      let h := powModGo fuel (b * b % m) (e / 2) m
      if e % 2 = 1 then b * h % m else h

/-- `b ^ e mod m` for exponents below 2^256. -/
def powMod (b e m : Nat) : Nat :=
  powModGo 256 (b % m) e m

/-- Inverse modulo the prime `pEd`, by Fermat. -/
def modInv (a : Nat) : Nat :=
  powMod a (pEd - 2) pEd

/-- The twisted Edwards coefficient d = -121665/121666 mod p. -/
def dEd : Nat :=
  (pEd - 121665) * modInv 121666 % pEd

/-- An affine point of the curve -x² + y² = 1 + d·x²·y² over the field. -/
structure EdPoint where
  x : Nat
  y : Nat
  deriving DecidableEq, Repr

/-- Complete twisted Edwards addition (a = -1). -/
def pointAdd (P Q : EdPoint) : EdPoint :=
  let t := dEd * P.x % pEd * Q.x % pEd * P.y % pEd * Q.y % pEd
  let x3 := (P.x * Q.y + Q.x * P.y) % pEd * modInv ((1 + t) % pEd) % pEd
  let y3 := (P.y * Q.y + P.x * Q.x) % pEd * modInv ((1 + pEd - t) % pEd) % pEd
  ⟨x3, y3⟩

/-- Double-and-add scalar multiplication; the identity is (0, 1).  Fuel 256
dominates the bit length of every scalar a 32-byte buffer can hold. -/
def scalarMulGo : Nat → Nat → EdPoint → EdPoint
  | 0, _, _ => ⟨0, 1⟩
  | fuel + 1, n, P =>
    if n = 0 then ⟨0, 1⟩
    else
      let h := scalarMulGo fuel (n / 2) P
      let hh := pointAdd h h
      if n % 2 = 1 then pointAdd hh P else hh

/-- Square root modulo `pEd` (which is 5 mod 8): try a^((p+3)/8), correct by
sqrt(-1) = 2^((p-1)/4) when needed. -/
def sqrtMod (a : Nat) : Nat :=
  let c := powMod a ((pEd + 3) / 8) pEd
  if c * c % pEd = a % pEd then c else c * powMod 2 ((pEd - 1) / 4) pEd % pEd

/-- y-coordinate of the base point: 4/5 mod p. -/
def basePointY : Nat :=
  4 * modInv 5 % pEd

/-- x-coordinate of the base point: recovered from y, even representative. -/
def basePointX : Nat :=
  let y := basePointY
  let u := (y * y + pEd - 1) % pEd
  let v := (dEd * y % pEd * y + 1) % pEd
  let x := sqrtMod (u * modInv v % pEd)
  if x % 2 = 0 then x else pEd - x

/-- The Ed25519 base point. -/
def basePoint : EdPoint := ⟨basePointX, basePointY⟩

/-- `Ed25519.Point.BASE.multiply(n)` (spec-modelled, see above). -/
def mulBase (n : Nat) : EdPoint :=
  scalarMulGo 256 n basePoint

/-- `point.toBytes()`: 32 little-endian bytes of y with the parity of x in
the top bit. -/
def pointToBytes (P : EdPoint) : List Nat :=
  (List.range 32).map (fun i => (P.y + P.x % 2 * 2 ^ 255) / 256 ^ i % 256)

/-! ## Key generation and wallet operations -/

/-- The Ed25519 group order l = 2^252 + 27742317777372353535851937790883648493,
as the source writes it. -/
def curveOrder : Nat :=
  0x1000000000000000000000000000000014def9dea2f79cd65812631a5cf5d3ed

/-- The little-endian scalar `scalarBigInt |= BigInt(bytes[i]) << (8i)` read
from the first 32 bytes. -/
def leScalar (bytes : List Nat) : Nat :=
  (List.range 32).foldl (fun acc i => acc ||| (bytes.getD i 0 <<< (8 * i))) 0

/-- `generateEd25519Keypair`: read the scalar little-endian (reading past the
end of a shorter buffer gives `undefined`, and `BigInt(undefined)` throws a
`TypeError`), reduce mod the curve order only when `ensureValid` requests it,
multiply the base point, no clamping. -/
def generateEd25519Keypair (privateKeyBytes : List Nat) (ensureValid : Bool) :
    Except Err (List Nat × List Nat) :=
  if privateKeyBytes.length < 32 then .error .typeError
  else
    let scalarBigInt := leScalar privateKeyBytes
    let scalarToUse :=
      if ensureValid ∧ curveOrder ≤ scalarBigInt then scalarBigInt % curveOrder
      else scalarBigInt
    .ok (pointToBytes (mulBase scalarToUse), privateKeyBytes)

/-- `publicKeyToAddress`: varint prefix `0x198004`, public key, first 4 bytes
of the Keccak-256 digest as checksum, block-Base58 encoded. -/
def publicKeyToAddress (publicKeyBytes : List Nat) : String :=
  let prefixBytes := encodeVarint 0x198004
  let buffer := prefixBytes ++ publicKeyBytes
  let hashBytes := hexBytesOf (keccak256 buffer)
  base58Encode (buffer ++ hashBytes.take 4)

/-- `importFromMnemonic`: checksum gate first, then decode, derive the keypair
without validation, build the address. -/
def importFromMnemonic (mnemonic : String) : Except Err WalletData :=
  if verifyMnemonicChecksum mnemonic = false then .error .invalidChecksum
  else do
    let privateKeyBytes ← mnemonicToPrivateKey mnemonic
    let keypair ← generateEd25519Keypair privateKeyBytes false
    let address := publicKeyToAddress keypair.1
    .ok ⟨address, bytesToHex privateKeyBytes, bytesToHex keypair.1, mnemonic⟩

/-- `importFromPrivateKey`: hex to bytes, keypair without validation, address,
mnemonic. -/
def importFromPrivateKey (privateKeyHex : String) : Except Err WalletData := do
  let privateKeyBytes ← hexToBytes privateKeyHex
  let keypair ← generateEd25519Keypair privateKeyBytes false
  let address := publicKeyToAddress keypair.1
  let mnemonic ← privateKeyToMnemonic privateKeyBytes
  .ok ⟨address, privateKeyHex, bytesToHex keypair.1, mnemonic⟩

/-- The `do … while (scalar >= order && attempts < 1000)` loop of
`generateWallet` over a stream of 32-byte draws: returns the last draw and
the attempt count at exit.  Called with fuel 1000, which dominates the
iteration count (each recursion needs `attempts + 1 < 1000`). -/
def genLoop (draws : Nat → List Nat) : Nat → Nat → (List Nat × Nat)
  | 0, attempts => (draws attempts, attempts + 1)
  | fuel + 1, attempts =>
    let bytes := draws attempts
    if curveOrder ≤ leScalar bytes ∧ attempts + 1 < 1000 then genLoop draws fuel (attempts + 1)
    else (bytes, attempts + 1)

/-- The post-loop body of `generateWallet`: mnemonic, keypair (with
`ensureValid` defaulted to true), address. -/
def walletFromSeed (privateKeyBytes : List Nat) : Except Err WalletData := do
  let mnemonic ← privateKeyToMnemonic privateKeyBytes
  let keypair ← generateEd25519Keypair privateKeyBytes true
  let address := publicKeyToAddress keypair.1
  .ok ⟨address, bytesToHex privateKeyBytes, bytesToHex keypair.1, mnemonic⟩

/-- `generateWallet` over a stream of random draws (the Web Crypto source is
modelled as the input stream `draws`, draw `i` being the bytes of the
`i+1`-st attempt): loop, then fail with the entropy-exhaustion error when
`attempts >= 1000`. -/
def generateWallet (draws : Nat → List Nat) : Except Err WalletData :=
  let r := genLoop draws 1000 0
  if 1000 ≤ r.2 then .error .entropyExhausted
  else walletFromSeed r.1

/-! ## Address validation (`isValidWalletAddress` of the helpers module) -/

/-- The Bitcoin-style base58 alphabet used by the `bs58` dependency. -/
def BS58_ALPHABET : List Char :=
  "123456789ABCDEFGHJKLMNPQRSTUVWXYZabcdefghijkmnopqrstuvwxyz".toList

/-- Big-endian bytes of a number, most significant first (no leading zero
byte).  The fuel dominates the digit count. -/
def natToBeBytesGo : Nat → Nat → List Nat
  | 0, _ => []
  | fuel + 1, n => if n = 0 then [] else natToBeBytesGo fuel (n / 256) ++ [n % 256]

/-- `bs58.decode`: whole-string base-58 big integer plus one zero byte per
leading `1`; the library throws on a character outside the alphabet
(modelled as `none`).  This is the Bitcoin-style codec of the `bs58`
dependency, not the repository's block codec. -/
def bs58decode (s : String) : Option (List Nat) :=
  match s.toList.mapM (fun c => (BS58_ALPHABET.indexOf? c)) with
  | none => none
  | some ds =>
    let n := ds.foldl (fun a d => a * 58 + d) 0
    let zeros := (s.toList.takeWhile (fun c => c == '1')).length
    some (List.replicate zeros 0 ++ natToBeBytesGo n n)

/-- The string constant the validator tests as address prefix. -/
def pasMarker : String := "PAS"

/-- `cn_fast_hash` is referenced by `isValidWalletAddress` but defined nowhere
in the repository (and not imported); evaluating the reference throws a
`ReferenceError`, which the surrounding `try`/`catch` collapses to `false`.
The missing binding is modelled as `none`. -/
def cnFastHashRef : Option (List Nat → List Nat) := none

/-- `isValidWalletAddress` from the helpers module.  `decoded.slice(0, 2)` has
just two entries, yet the source tests `prefix[2] !== 0x04`; indexing a typed
array out of bounds yields `undefined` (here `none`), so that test can never
pass. -/
def isValidWalletAddress (address : String) : Bool :=
  if address = emptyString then false
  else if ¬ address.startsWith pasMarker then false
  else if address.length < 50 ∨ 100 < address.length then false
  else
    match bs58decode address with
    | none => false
    | some decoded =>
      if decoded.length < 38 then false
      else
        let pfx := decoded.take 2
        if pfx[0]? ≠ some 0x19 ∨ pfx[1]? ≠ some 0x80 ∨ pfx[2]? ≠ some 0x04 then false
        else
          match cnFastHashRef with
          | none => false
          | some h =>
            let expected := (h (decoded.take 34)).take 4
            (decoded.drop 34).take 4 == expected

/-! ## Wordlist facts

The dictionary is pinned down once and for all: 1626 entries, pairwise
distinct (established through a strictly increasing numeric key, checked by
evaluation), every entry nonempty and free of whitespace. -/

/-- A numeric key injective enough for the dictionary: the characters as a
base-256 numeral, padded on the right to width 12 (no entry is longer). -/
def wkey (w : String) : Nat :=
  w.toList.foldl (fun a c => a * 256 + c.toNat) 0 * 256 ^ (12 - w.length)

/-- A word usable in a space-separated mnemonic: nonempty, no whitespace. -/
def goodWord (w : String) : Bool :=
  !w.toList.isEmpty && w.toList.all (fun c => !c.isWhitespace)

/-- Boolean check that consecutive keys strictly increase. -/
def wkeysAscend : List String → Bool
  | [] => true
  | [_] => true
  | a :: b :: rest => decide (wkey a < wkey b) && wkeysAscend (b :: rest)

set_option maxRecDepth 10000 in
theorem wordlist_length : WORDLIST.length = 1626 := by rfl

set_option maxRecDepth 100000 in
theorem wordlist_good : WORDLIST.all goodWord = true := by decide

set_option maxRecDepth 100000 in
theorem wordlist_ascend : wkeysAscend WORDLIST = true := by decide

theorem wkeysAscend_pairwise :
    ∀ l : List String, wkeysAscend l = true →
      List.Pairwise (fun a b => wkey a < wkey b) l := by
  intro l
  induction l with
  | nil => intro _; exact List.Pairwise.nil
  | cons a rest ih =>
    cases rest with
    | nil => intro _; simp
    | cons b rest2 =>
      intro h
      rw [wkeysAscend, Bool.and_eq_true, decide_eq_true_eq] at h
      have hp := ih h.2
      refine List.pairwise_cons.mpr ⟨?_, hp⟩
      intro x hx
      rcases List.mem_cons.mp hx with hxb | hxr
      · exact hxb ▸ h.1
      · exact lt_trans h.1 ((List.pairwise_cons.mp hp).1 x hxr)

theorem wordlist_nodup : WORDLIST.Nodup := by
  have hp := wkeysAscend_pairwise WORDLIST wordlist_ascend
  exact hp.imp (fun {a b} hlt heq => by subst heq; exact lt_irrefl _ hlt)

/-- Looking up a dictionary word recovers its index. -/
theorem getWordIndex_getElem (i : Nat) (h : i < WORDLIST.length) :
    getWordIndex WORDLIST[i] = .ok i := by
  unfold getWordIndex
  rw [List.indexOf_getElem wordlist_nodup i h]
  simp [h]

/-- A word outside the dictionary fails the lookup. -/
theorem getWordIndex_not_mem {w : String} (h : w ∉ WORDLIST) :
    getWordIndex w = .error .unknownWord := by
  unfold getWordIndex
  rw [List.indexOf_eq_length.mpr h]
  simp

/-- A successful lookup returns an index below 1626 of a dictionary word. -/
theorem getWordIndex_ok {w : String} {i : Nat} (h : getWordIndex w = .ok i) :
    i < 1626 ∧ w ∈ WORDLIST := by
  unfold getWordIndex at h
  by_cases hlt : WORDLIST.indexOf w < WORDLIST.length
  · rw [if_pos hlt] at h
    cases h
    refine ⟨by simpa [wordlist_length] using hlt, ?_⟩
    exact List.indexOf_lt_length.mp hlt
  · rw [if_neg hlt] at h
    cases h

/-- Every dictionary word is nonempty and whitespace-free. -/
theorem wordlist_goodWord {w : String} (h : w ∈ WORDLIST) : goodWord w = true :=
  List.all_eq_true.mp wordlist_good w h

/-! ## Splitting a joined mnemonic recovers the words -/

theorem takeWhile_append_all {p : Char → Bool} (w r : List Char)
    (hw : ∀ c ∈ w, p c = true) : (w ++ r).takeWhile p = w ++ r.takeWhile p := by
  induction w with
  | nil => simp
  | cons c w' ih =>
    have hc : p c = true := hw c (List.mem_cons_self c w')
    simp only [List.cons_append, List.takeWhile_cons, hc, if_true]
    rw [ih (fun d hd => hw d (List.mem_cons_of_mem c hd))]

theorem dropWhile_append_all {p : Char → Bool} (w r : List Char)
    (hw : ∀ c ∈ w, p c = true) : (w ++ r).dropWhile p = r.dropWhile p := by
  induction w with
  | nil => simp
  | cons c w' ih =>
    have hc : p c = true := hw c (List.mem_cons_self c w')
    simp only [List.cons_append, List.dropWhile_cons, hc, if_true]
    exact ih (fun d hd => hw d (List.mem_cons_of_mem c hd))

theorem wordsGo_nil (fuel : Nat) : wordsGo fuel [] = [] := by
  cases fuel <;> rfl

/-- Splitting the space-joined concatenation of nonempty whitespace-free
character chunks recovers the chunks. -/
theorem wordsGo_joinChars :
    ∀ (cs : List (List Char)),
      (∀ c ∈ cs, c ≠ [] ∧ ∀ ch ∈ c, ch.isWhitespace = false) →
      ∀ fuel, (joinChars cs).length ≤ fuel → wordsGo fuel (joinChars cs) = cs := by
  intro cs
  induction cs with
  | nil => intro _ fuel _; exact wordsGo_nil fuel
  | cons w rest ih =>
    intro h fuel hfuel
    have hw := h w (List.mem_cons_self w rest)
    obtain ⟨hne, hnws⟩ := hw
    obtain ⟨c, w', hcw⟩ : ∃ c w', w = c :: w' := by
      cases w with
      | nil => exact absurd rfl hne
      | cons c w' => exact ⟨c, w', rfl⟩
    subst hcw
    have hcns : c.isWhitespace = false := hnws c (List.mem_cons_self c w')
    have hw'ns : ∀ d ∈ w', (!d.isWhitespace) = true := by
      intro d hd
      simp [hnws d (List.mem_cons_of_mem c hd)]
    cases rest with
    | nil =>
      simp only [joinChars] at hfuel ⊢
      cases fuel with
      | zero => simp at hfuel
      | succ f =>
        simp only [wordsGo, hcns, Bool.false_eq_true, if_false]
        have ht : w'.takeWhile (fun d => !d.isWhitespace) = w' := by
          have := takeWhile_append_all (p := fun d => !d.isWhitespace) w' [] hw'ns
          simpa using this
        have hd : w'.dropWhile (fun d => !d.isWhitespace) = [] := by
          have := dropWhile_append_all (p := fun d => !d.isWhitespace) w' [] hw'ns
          simpa using this
        rw [ht, hd, wordsGo_nil]
    | cons w2 rest2 =>
      have hrest : ∀ c ∈ w2 :: rest2, c ≠ [] ∧ ∀ ch ∈ c, ch.isWhitespace = false :=
        fun c hc => h c (List.mem_cons_of_mem _ hc)
      have hJ : joinChars ((c :: w') :: w2 :: rest2) =
          c :: (w' ++ ' ' :: joinChars (w2 :: rest2)) := rfl
      rw [hJ] at hfuel ⊢
      cases fuel with
      | zero => simp at hfuel
      | succ f =>
        simp only [wordsGo, hcns, Bool.false_eq_true, if_false]
        have hsp : (' '.isWhitespace : Bool) = true := by decide
        have ht : (w' ++ ' ' :: joinChars (w2 :: rest2)).takeWhile (fun d => !d.isWhitespace) = w' := by
          rw [takeWhile_append_all w' _ hw'ns]
          simp [List.takeWhile_cons, hsp]
        have hd : (w' ++ ' ' :: joinChars (w2 :: rest2)).dropWhile (fun d => !d.isWhitespace) =
            ' ' :: joinChars (w2 :: rest2) := by
          rw [dropWhile_append_all w' _ hw'ns]
          simp [List.dropWhile_cons, hsp]
        rw [ht, hd]
        have hflen : (' ' :: joinChars (w2 :: rest2)).length ≤ f := by
          simp only [List.length_cons, List.length_append] at hfuel ⊢
          omega
        cases f with
        | zero => simp at hflen
        | succ f2 =>
          simp only [wordsGo, hsp, if_true]
          congr 1
          exact ih hrest f2 (by simpa using Nat.le_of_succ_le_succ hflen)

/-- `mk` of `toList` is the identity. -/
theorem string_mk_toList (w : String) : String.mk w.toList = w := rfl

/-- Splitting the space-joined rendering of good words recovers the words. -/
theorem jsWords_joinWords (ws : List String) (h : ∀ w ∈ ws, goodWord w = true) :
    jsWords (joinWords ws) = ws := by
  unfold jsWords joinWords
  have hcs : ∀ c ∈ ws.map String.toList, c ≠ [] ∧ ∀ ch ∈ c, ch.isWhitespace = false := by
    intro c hc
    obtain ⟨w, hw, rfl⟩ := List.mem_map.mp hc
    have hg : ¬ w.data = [] ∧ ∀ x ∈ w.data, x.isWhitespace = false := by
      have hgw := h w hw
      unfold goodWord at hgw
      simpa [List.isEmpty_iff] using hgw
    exact ⟨hg.1, hg.2⟩
  have hs : (String.mk (joinChars (ws.map String.toList))).toList =
      joinChars (ws.map String.toList) := rfl
  rw [hs, wordsGo_joinChars (ws.map String.toList) hcs _ (le_refl _)]
  rw [List.map_map]
  have : (String.mk ∘ String.toList) = id := by
    funext w
    exact string_mk_toList w
  rw [this, List.map_id]

/-! ## The triplet encoding arithmetic -/

theorem except_bind_ok {α β : Type} (a : α) (f : α → Except Err β) :
    (Except.ok a : Except Err α) >>= f = f a := rfl

theorem except_bind_error {α β : Type} (e : Err) (f : α → Except Err β) :
    (Except.error e : Except Err α) >>= f = Except.error e := rfl

/-- The checksum-shift identity behind the triplet decode: adding the
complement of `a` to `(x + a) mod L` recovers `x mod L`. -/
theorem mod_shift (a x : Nat) (ha : a < 1626) :
    (1626 - a + (x + a) % 1626) % 1626 = x % 1626 := by
  rw [Nat.add_mod_mod]
  have h : 1626 - a + (x + a) = 1626 + x := by omega
  rw [h, Nat.add_mod_left]

/-- Decoding the three word indices produced from a 32-bit group value
recovers the value. -/
theorem triplet_roundtrip (val : Nat) (hval : val < 4294967296) :
    (val % 1626) + 1626 * ((1626 - val % 1626 + (val / 1626 + val % 1626) % 1626) % 1626) +
      1626 * 1626 * ((1626 - (val / 1626 + val % 1626) % 1626 +
        (val / 1626 / 1626 + (val / 1626 + val % 1626) % 1626) % 1626) % 1626) = val := by
  have h1 := mod_shift (val % 1626) (val / 1626) (Nat.mod_lt _ (by norm_num))
  have h2 := mod_shift ((val / 1626 + val % 1626) % 1626) (val / 1626 / 1626)
    (Nat.mod_lt _ (by norm_num))
  rw [h1, h2]
  omega

/-! ## Structure of the words produced by the encoder -/

/-- The encoder emits three words per four seed bytes. -/
theorem seedToWords_length (l : List Nat) : (seedToWords l).length = 3 * (l.length / 4) := by
  match l with
  | [] => rfl
  | [_] => simp [seedToWords]
  | [_, _] => simp [seedToWords]
  | [_, _, _] => simp [seedToWords]
  | b0 :: b1 :: b2 :: b3 :: rest =>
    have ih := seedToWords_length rest
    simp only [seedToWords, List.length_cons, ih]
    omega

/-- `getD` at an index inside the dictionary is a dictionary member. -/
theorem wordlist_getD_mem (i : Nat) (h : i < 1626) :
    WORDLIST.getD i emptyString ∈ WORDLIST := by
  have hl : i < WORDLIST.length := by rw [wordlist_length]; exact h
  rw [List.getD_eq_getElem?_getD, List.getElem?_eq_getElem hl]
  exact List.getElem_mem hl

/-- Every word the encoder emits is a dictionary word. -/
theorem seedToWords_mem (l : List Nat) : ∀ w ∈ seedToWords l, w ∈ WORDLIST := by
  match l with
  | [] => intro w hw; cases hw
  | [_] => intro w hw; cases hw
  | [_, _] => intro w hw; cases hw
  | [_, _, _] => intro w hw; cases hw
  | b0 :: b1 :: b2 :: b3 :: rest =>
    intro w hw
    simp only [seedToWords, List.mem_cons] at hw
    rcases hw with h | h | h | h
    · exact h ▸ wordlist_getD_mem _ (Nat.mod_lt _ (by norm_num))
    · exact h ▸ wordlist_getD_mem _ (Nat.mod_lt _ (by norm_num))
    · exact h ▸ wordlist_getD_mem _ (Nat.mod_lt _ (by norm_num))
    · exact seedToWords_mem rest w h

/-- `getD` inside the dictionary as a `get`. -/
theorem wordlist_getD_eq (i : Nat) (h : i < WORDLIST.length) :
    WORDLIST.getD i emptyString = WORDLIST.get ⟨i, h⟩ := by
  rw [List.getD_eq_getElem?_getD, List.getElem?_eq_getElem h, List.get_eq_getElem]
  rfl

/-- Looking up a dictionary word by position recovers its index. -/
theorem getWordIndex_get (i : Nat) (h : i < WORDLIST.length) :
    getWordIndex (WORDLIST.get ⟨i, h⟩) = .ok i := by
  rw [List.get_eq_getElem]
  exact getWordIndex_getElem i h

/-! ## Decoding inverts encoding (`wordsToBytes` after `seedToWords`) -/

set_option maxRecDepth 4000 in
/-- Decoding the words encoded from a byte list whose length is a multiple of
four recovers the bytes. -/
theorem wordsToBytes_seedToWords (l : List Nat) (hb : ∀ b ∈ l, b < 256)
    (hl : l.length % 4 = 0) : wordsToBytes (seedToWords l) = .ok l := by
  match l with
  | [] => rfl
  | [_] => simp at hl
  | [_, _] => simp at hl
  | [_, _, _] => simp at hl
  | b0 :: b1 :: b2 :: b3 :: rest =>
    have hb0 : b0 < 256 := hb b0 (by simp)
    have hb1 : b1 < 256 := hb b1 (by simp)
    have hb2 : b2 < 256 := hb b2 (by simp)
    have hb3 : b3 < 256 := hb b3 (by simp)
    have hrest : wordsToBytes (seedToWords rest) = .ok rest :=
      wordsToBytes_seedToWords rest (fun b hbr => hb b (by simp [hbr]))
        (by simp only [List.length_cons] at hl; omega)
    set val := b0 + 256 * b1 + 65536 * b2 + 16777216 * b3 with hvaldef
    have hval : val < 4294967296 := by omega
    have hbytes : uint32LeBytes val = [b0, b1, b2, b3] := by
      unfold uint32LeBytes
      have e0 : val % 256 = b0 := by rw [hvaldef]; omega
      have e1 : val / 256 % 256 = b1 := by rw [hvaldef]; omega
      have e2 : val / 65536 % 256 = b2 := by rw [hvaldef]; omega
      have e3 : val / 16777216 % 256 = b3 := by rw [hvaldef]; omega
      rw [e0, e1, e2, e3]
    have hw1 : val % 1626 < 1626 := Nat.mod_lt _ (by norm_num)
    have hw2 : (val / 1626 + val % 1626) % 1626 < 1626 := Nat.mod_lt _ (by norm_num)
    have hw3 : (val / 1626 / 1626 + (val / 1626 + val % 1626) % 1626) % 1626 < 1626 :=
      Nat.mod_lt _ (by norm_num)
    have hg1 := getWordIndex_get (val % 1626) (by rw [wordlist_length]; exact hw1)
    have hg2 := getWordIndex_get ((val / 1626 + val % 1626) % 1626)
      (by rw [wordlist_length]; exact hw2)
    have hg3 := getWordIndex_get
      ((val / 1626 / 1626 + (val / 1626 + val % 1626) % 1626) % 1626)
      (by rw [wordlist_length]; exact hw3)
    have htrip := triplet_roundtrip val hval
    simp only [seedToWords, ← hvaldef]
    rw [wordlist_getD_eq _ (by rw [wordlist_length]; exact hw1),
      wordlist_getD_eq _ (by rw [wordlist_length]; exact hw2),
      wordlist_getD_eq _ (by rw [wordlist_length]; exact hw3)]
    simp only [wordsToBytes, hg1, hg2, hg3, except_bind_ok]
    rw [if_neg (by rw [htrip]; exact fun hne => hne rfl)]
    simp only [hrest, except_bind_ok]
    rw [htrip, hbytes]
    rfl

/-! ## The consistency check of the decoder never fires -/

/-- The only lookup failure is the unknown-word error. -/
theorem getWordIndex_error {w : String} {e : Err} (h : getWordIndex w = .error e) :
    e = .unknownWord := by
  simp only [getWordIndex] at h
  split at h
  · cases h
  · cases h; rfl

/-- A dictionary word looks up successfully. -/
theorem getWordIndex_mem {w : String} (h : w ∈ WORDLIST) :
    getWordIndex w = .ok (WORDLIST.indexOf w) := by
  unfold getWordIndex
  rw [if_pos (List.indexOf_lt_length.mpr h)]

/-- `wordsToBytes` never reports the encoding inconsistency: the value it
rebuilds from the looked-up indices is congruent to the first index by
construction. -/
theorem wordsToBytes_ne_encodingError :
    ∀ ws : List String, wordsToBytes ws ≠ .error .encodingError := by
  intro ws
  match ws with
  | [] => simp [wordsToBytes]
  | [w] => simp [wordsToBytes]
  | [w1, w2] => simp [wordsToBytes]
  | w1 :: w2 :: w3 :: rest =>
    cases hg1 : getWordIndex w1 with
    | error e =>
      rw [getWordIndex_error hg1] at hg1
      simp [wordsToBytes, hg1, except_bind_error]
    | ok i1 =>
      cases hg2 : getWordIndex w2 with
      | error e =>
        rw [getWordIndex_error hg2] at hg2
        simp [wordsToBytes, hg1, hg2, except_bind_ok, except_bind_error]
      | ok i2 =>
        cases hg3 : getWordIndex w3 with
        | error e =>
          rw [getWordIndex_error hg3] at hg3
          simp [wordsToBytes, hg1, hg2, hg3, except_bind_ok, except_bind_error]
        | ok i3 =>
          have hi1 : i1 < 1626 := (getWordIndex_ok hg1).1
          simp only [wordsToBytes, hg1, hg2, hg3, except_bind_ok]
          rw [if_neg (by omega)]
          cases hr : wordsToBytes rest with
          | error e =>
            have ih := wordsToBytes_ne_encodingError rest
            rw [hr] at ih
            simpa [except_bind_error] using ih
          | ok bs => simp [except_bind_ok]

/-- With every word in the dictionary, the decode loop succeeds. -/
theorem wordsToBytes_all_mem :
    ∀ ws : List String, (∀ w ∈ ws, w ∈ WORDLIST) → ws.length % 3 = 0 →
      ∃ bs, wordsToBytes ws = .ok bs := by
  intro ws
  match ws with
  | [] => intro _ _; exact ⟨[], rfl⟩
  | [w] => intro _ h; simp at h
  | [w1, w2] => intro _ h; simp at h
  | w1 :: w2 :: w3 :: rest =>
    intro hmem hlen
    have hg1 := getWordIndex_mem (hmem w1 (by simp))
    have hg2 := getWordIndex_mem (hmem w2 (by simp))
    have hg3 := getWordIndex_mem (hmem w3 (by simp))
    have hi1 : WORDLIST.indexOf w1 < 1626 := (getWordIndex_ok hg1).1
    obtain ⟨bs, hbs⟩ := wordsToBytes_all_mem rest
      (fun w hw => hmem w (by simp [hw]))
      (by simp only [List.length_cons] at hlen; omega)
    simp only [wordsToBytes, hg1, hg2, hg3, except_bind_ok]
    rw [if_neg (by omega), hbs]
    exact ⟨_, rfl⟩

/-- An out-of-dictionary word anywhere in the list makes the decode loop fail
with the unknown-word error. -/
theorem wordsToBytes_unknown :
    ∀ ws : List String, (∃ w ∈ ws, w ∉ WORDLIST) →
      wordsToBytes ws = .error .unknownWord := by
  intro ws
  match ws with
  | [] => intro h; simp at h
  | [w] => intro _; simp [wordsToBytes]
  | [w1, w2] => intro _; simp [wordsToBytes]
  | w1 :: w2 :: w3 :: rest =>
    intro h
    obtain ⟨w, hw, hnot⟩ := h
    by_cases h1 : w1 ∈ WORDLIST
    · have hg1 := getWordIndex_mem h1
      by_cases h2 : w2 ∈ WORDLIST
      · have hg2 := getWordIndex_mem h2
        by_cases h3 : w3 ∈ WORDLIST
        · have hg3 := getWordIndex_mem h3
          have hi1 : WORDLIST.indexOf w1 < 1626 := (getWordIndex_ok hg1).1
          have hwrest : w ∈ rest := by
            rcases List.mem_cons.mp hw with rfl | hw2
            · exact absurd h1 hnot
            rcases List.mem_cons.mp hw2 with rfl | hw3
            · exact absurd h2 hnot
            rcases List.mem_cons.mp hw3 with rfl | hw4
            · exact absurd h3 hnot
            · exact hw4
          have ih := wordsToBytes_unknown rest ⟨w, hwrest, hnot⟩
          simp only [wordsToBytes, hg1, hg2, hg3, except_bind_ok]
          rw [if_neg (by omega)]
          simp [ih, except_bind_error]
        · have hg3 := getWordIndex_not_mem h3
          simp [wordsToBytes, hg1, hg2, hg3, except_bind_ok, except_bind_error]
      · have hg2 := getWordIndex_not_mem h2
        simp [wordsToBytes, hg1, hg2, except_bind_ok, except_bind_error]
    · have hg1 := getWordIndex_not_mem h1
      simp [wordsToBytes, hg1, except_bind_error]

/-! ## Facts about the produced word list -/

theorem getD_mem_of_lt {l : List String} {i : Nat} (h : i < l.length) (d : String) :
    l.getD i d ∈ l := by
  rw [List.getD_eq_getElem?_getD, List.getElem?_eq_getElem h]
  exact List.getElem_mem h

/-- The checksum word is one of the words it is computed from (for a 24-word
list). -/
theorem calculateChecksumWord_mem {ws : List String} (h : ws.length = 24) :
    calculateChecksumWord ws ∈ ws := by
  unfold calculateChecksumWord
  exact getD_mem_of_lt (by rw [h]; exact Nat.mod_lt _ (by norm_num)) _

/-- The encoder output for a 32-byte seed, explicitly. -/
theorem privateKeyToMnemonic_ok (seed : List Nat) (hlen : seed.length = 32) :
    privateKeyToMnemonic seed =
      .ok (joinWords (seedToWords seed ++ [calculateChecksumWord (seedToWords seed)])) := by
  unfold privateKeyToMnemonic
  rw [if_neg (by omega), List.take_of_length_le (by omega)]

/-- The 24 data words of a 32-byte seed. -/
theorem seedToWords_len32 (seed : List Nat) (hlen : seed.length = 32) :
    (seedToWords seed).length = 24 := by
  rw [seedToWords_length, hlen]

/-- All 25 produced words are good (nonempty, whitespace-free). -/
theorem produced_words_good (seed : List Nat) (hlen : seed.length = 32) :
    ∀ w ∈ seedToWords seed ++ [calculateChecksumWord (seedToWords seed)],
      goodWord w = true := by
  intro w hw
  rcases List.mem_append.mp hw with hw1 | hw2
  · exact wordlist_goodWord (seedToWords_mem seed w hw1)
  · have hcw : w = calculateChecksumWord (seedToWords seed) := by simpa using hw2
    subst hcw
    exact wordlist_goodWord
      (seedToWords_mem seed _ (calculateChecksumWord_mem (seedToWords_len32 seed hlen)))

/-- Splitting the produced mnemonic recovers the 25 words. -/
theorem produced_words_split (seed : List Nat) (hlen : seed.length = 32) :
    jsWords (joinWords (seedToWords seed ++ [calculateChecksumWord (seedToWords seed)])) =
      seedToWords seed ++ [calculateChecksumWord (seedToWords seed)] :=
  jsWords_joinWords _ (produced_words_good seed hlen)

theorem getD_append_singleton {l : List String} {x : String} (h : l.length = 24) :
    (l ++ [x]).getD 24 emptyString = x := by
  rw [List.getD_eq_getElem?_getD, List.getElem?_append_right (by omega)]
  simp [h]

theorem take_append_singleton {l : List String} {x : String} (h : l.length = 24) :
    (l ++ [x]).take 24 = l := by
  rw [← h]
  exact List.take_left l [x]

/-- A 24-word mnemonic (one word short of valid). -/
def mnemAbbey24 : String := "abbey abbey abbey abbey abbey abbey abbey abbey abbey abbey abbey abbey abbey abbey abbey abbey abbey abbey abbey abbey abbey abbey abbey abbey"

/-- 25 copies of a word that is not in the dictionary; its checksum word is
itself, so the checksum gate passes. -/
def mnemZzz25 : String := "zzz zzz zzz zzz zzz zzz zzz zzz zzz zzz zzz zzz zzz zzz zzz zzz zzz zzz zzz zzz zzz zzz zzz zzz zzz"

/-- A 25-word mnemonic containing the out-of-dictionary word at both ends;
its checksum word is a dictionary word, so the checksum gate fails. -/
def mnemZzzFirst : String := "zzz abbey abbey abbey abbey abbey abbey abbey abbey abbey abbey abbey abbey abbey abbey abbey abbey abbey abbey abbey abbey abbey abbey abbey zzz"

/-- 25 copies of the first dictionary word. -/
def mnemAbbey25 : String := "abbey abbey abbey abbey abbey abbey abbey abbey abbey abbey abbey abbey abbey abbey abbey abbey abbey abbey abbey abbey abbey abbey abbey abbey abbey"

/-! ## C1: mnemonic round-trip -/

/-- C1.  For every 32-byte seed, decoding the mnemonic produced from it
returns exactly that seed:
`mnemonicToPrivateKey (privateKeyToMnemonic seed) = seed`. -/
theorem mnemonic_roundtrip (seed : List Nat) (hlen : seed.length = 32)
    (hbyte : ∀ b ∈ seed, b < 256) :
    (privateKeyToMnemonic seed).bind mnemonicToPrivateKey = .ok seed := by
  have h24 := seedToWords_len32 seed hlen
  rw [privateKeyToMnemonic_ok seed hlen]
  show mnemonicToPrivateKey _ = _
  simp only [mnemonicToPrivateKey]
  rw [produced_words_split seed hlen]
  rw [if_neg (by simp [h24])]
  rw [take_append_singleton h24]
  exact wordsToBytes_seedToWords seed hbyte (by omega)

/-- Witness for C1 at the concrete seed `0, 1, …, 31`. -/
theorem mnemonic_roundtrip_witness :
    (List.range 32).length = 32 ∧ (∀ b ∈ List.range 32, b < 256) ∧
      (privateKeyToMnemonic (List.range 32)).bind mnemonicToPrivateKey =
        .ok (List.range 32) :=
  ⟨by decide, by decide, mnemonic_roundtrip (List.range 32) (by decide) (by decide)⟩

/-! ## C2: the produced mnemonic passes the checksum check -/

/-- C2.  The 25-word mnemonic produced from any 32-byte seed satisfies
`verifyMnemonicChecksum`; its 25th word is the checksum word computed from
the first 24 words, and that word is itself one of the 24 data words. -/
theorem produced_mnemonic_verifies (seed : List Nat) (hlen : seed.length = 32) :
    ∃ m, privateKeyToMnemonic seed = .ok m ∧
      verifyMnemonicChecksum m = true ∧
      (jsWords m).getD 24 emptyString = calculateChecksumWord ((jsWords m).take 24) ∧
      (jsWords m).getD 24 emptyString ∈ (jsWords m).take 24 := by
  have h24 := seedToWords_len32 seed hlen
  have hsplit := produced_words_split seed hlen
  refine ⟨_, privateKeyToMnemonic_ok seed hlen, ?_, ?_, ?_⟩
  · simp only [verifyMnemonicChecksum]
    rw [hsplit, if_neg (by simp [h24]), take_append_singleton h24,
      getD_append_singleton h24]
    exact beq_self_eq_true _
  · rw [hsplit, take_append_singleton h24, getD_append_singleton h24]
  · rw [hsplit, take_append_singleton h24, getD_append_singleton h24]
    exact calculateChecksumWord_mem h24

/-- Witness for C2 at the concrete seed `0, 1, …, 31`. -/
theorem produced_mnemonic_verifies_witness :
    (List.range 32).length = 32 ∧
      (∃ m, privateKeyToMnemonic (List.range 32) = .ok m ∧
        verifyMnemonicChecksum m = true ∧
        (jsWords m).getD 24 emptyString = calculateChecksumWord ((jsWords m).take 24) ∧
        (jsWords m).getD 24 emptyString ∈ (jsWords m).take 24) :=
  ⟨by decide, produced_mnemonic_verifies (List.range 32) (by decide)⟩

/-! ## C10: the encoding-consistency error branch is unreachable -/

/-- C10.  `mnemonicToPrivateKey` never raises the internal
`Invalid mnemonic encoding` error, on any input whatsoever; and on a 25-word
mnemonic whose first 24 words are all dictionary words it succeeds. -/
theorem mnemonic_consistency_check_unreachable :
    (∀ m : String, mnemonicToPrivateKey m ≠ .error .encodingError) ∧
    (∀ m : String, (jsWords m).length = 25 →
      (∀ w ∈ (jsWords m).take 24, w ∈ WORDLIST) →
      ∃ bs, mnemonicToPrivateKey m = .ok bs) := by
  constructor
  · intro m
    simp only [mnemonicToPrivateKey]
    by_cases h : (jsWords m).length ≠ 25
    · rw [if_pos h]
      simp
    · rw [if_neg h]
      exact wordsToBytes_ne_encodingError _
  · intro m hlen hmem
    simp only [mnemonicToPrivateKey]
    rw [if_neg (by omega)]
    refine wordsToBytes_all_mem _ hmem ?_
    rw [List.length_take, hlen]
    decide

/-- Witness for C10 at a concrete 25-word all-dictionary mnemonic. -/
theorem mnemonic_consistency_witness :
    (jsWords mnemAbbey25).length = 25 ∧
      (∀ w ∈ (jsWords mnemAbbey25).take 24, w ∈ WORDLIST) ∧
      (∃ bs, mnemonicToPrivateKey mnemAbbey25 = .ok bs) ∧
      mnemonicToPrivateKey mnemAbbey25 ≠ .error .encodingError :=
  ⟨by decide, by decide,
    mnemonic_consistency_check_unreachable.2 mnemAbbey25 (by decide) (by decide),
    mnemonic_consistency_check_unreachable.1 mnemAbbey25⟩

/-! ## C4: the negative cases of `importFromMnemonic` -/

theorem verify_false_of_len {m : String} (h : (jsWords m).length ≠ 25) :
    verifyMnemonicChecksum m = false := by
  simp only [verifyMnemonicChecksum]
  rw [if_pos h]

theorem verify_length {m : String} (h : verifyMnemonicChecksum m = true) :
    (jsWords m).length = 25 := by
  by_contra hne
  rw [verify_false_of_len hne] at h
  cases h

/-- C4 (amended).  `importFromMnemonic` on a 24-word mnemonic fails with the
checksum error (the checksum gate runs before the length check of the
decoder); on a checksum-passing mnemonic containing an out-of-dictionary word
among its first 24 it fails with the unknown-word error; on a 25-word
mnemonic whose 25th word is not the recomputed checksum word it fails with
the checksum error. -/
theorem importFromMnemonic_negative_cases :
    (∀ m : String, (jsWords m).length = 24 →
      importFromMnemonic m = .error .invalidChecksum) ∧
    (∀ m : String, verifyMnemonicChecksum m = true →
      (∃ w ∈ (jsWords m).take 24, w ∉ WORDLIST) →
      importFromMnemonic m = .error .unknownWord) ∧
    (∀ m : String, (jsWords m).length = 25 →
      calculateChecksumWord ((jsWords m).take 24) ≠ (jsWords m).getD 24 emptyString →
      importFromMnemonic m = .error .invalidChecksum) := by
  refine ⟨?_, ?_, ?_⟩
  · intro m hlen
    have hv : verifyMnemonicChecksum m = false := verify_false_of_len (by omega)
    simp only [importFromMnemonic]
    rw [if_pos hv]
  · intro m hv hunk
    have hlen := verify_length hv
    have hdec : mnemonicToPrivateKey m = .error .unknownWord := by
      simp only [mnemonicToPrivateKey]
      rw [if_neg (by omega)]
      refine wordsToBytes_unknown _ ?_
      obtain ⟨w, hw, hnot⟩ := hunk
      exact ⟨w, hw, hnot⟩
    simp only [importFromMnemonic]
    rw [if_neg (by simp [hv])]
    show (mnemonicToPrivateKey m >>= _) = _
    rw [hdec]
    rfl
  · intro m hlen hne
    have hv : verifyMnemonicChecksum m = false := by
      simp only [verifyMnemonicChecksum]
      rw [if_neg (by omega)]
      exact beq_eq_false_iff_ne.mpr hne
    simp only [importFromMnemonic]
    rw [if_pos hv]

/-- Counterexample to C4 as stated: a 24-word mnemonic is rejected with the
checksum error, not the length error; and a 25-word mnemonic containing an
out-of-dictionary word can be rejected with the checksum error, not the
unknown-word error. -/
theorem importFromMnemonic_counterexample :
    (importFromMnemonic mnemAbbey24 = .error .invalidChecksum ∧
      Err.invalidChecksum ≠ Err.invalidLength) ∧
    ((∃ w ∈ jsWords mnemZzzFirst, w ∉ WORDLIST) ∧
      importFromMnemonic mnemZzzFirst = .error .invalidChecksum ∧
      Err.invalidChecksum ≠ Err.unknownWord) := by
  exact ⟨⟨by decide, by decide⟩, by decide, by decide, by decide⟩

/-- Witness for the amended C4, applying each branch at a concrete input. -/
theorem importFromMnemonic_negative_witness :
    ((jsWords mnemAbbey24).length = 24 ∧
      importFromMnemonic mnemAbbey24 = .error .invalidChecksum) ∧
    (verifyMnemonicChecksum mnemZzz25 = true ∧
      (∃ w ∈ (jsWords mnemZzz25).take 24, w ∉ WORDLIST) ∧
      importFromMnemonic mnemZzz25 = .error .unknownWord) ∧
    ((jsWords mnemZzzFirst).length = 25 ∧
      calculateChecksumWord ((jsWords mnemZzzFirst).take 24) ≠
        (jsWords mnemZzzFirst).getD 24 emptyString ∧
      importFromMnemonic mnemZzzFirst = .error .invalidChecksum) :=
  ⟨⟨by decide, importFromMnemonic_negative_cases.1 mnemAbbey24 (by decide)⟩,
    ⟨by decide, by decide,
      importFromMnemonic_negative_cases.2.1 mnemZzz25 (by decide) (by decide)⟩,
    ⟨by decide, by decide,
      importFromMnemonic_negative_cases.2.2 mnemZzzFirst (by decide) (by decide)⟩⟩

/-! ## C9: the varint codec -/

/-- On non-negative 32-bit input the source loop agrees with the spec's
7-bit-group description, fuel-parametrically. -/
theorem encodeVarintGo_eq_varintSpecGo :
    ∀ (fuel : Nat) (n : Nat), n < 2 ^ 32 → n < 128 ^ (fuel + 1) →
      encodeVarintGo fuel (n : Int) = varintSpecGo fuel n := by
  intro fuel
  induction fuel with
  | zero =>
    intro n _ hn
    have h128 : n < 128 := by simpa using hn
    have h1 : ((n : Int)).emod 256 = (n : Int) :=
      Int.emod_eq_of_lt (by positivity) (by exact_mod_cast (by omega : n < 256))
    simp [encodeVarintGo, varintSpecGo, h1]
  | succ f ih =>
    intro n h32 hbound
    by_cases hlt : n < 128
    · have h1 : ((n : Int)).emod 256 = (n : Int) :=
        Int.emod_eq_of_lt (by positivity) (by exact_mod_cast (by omega : n < 256))
      simp [encodeVarintGo, varintSpecGo, h1, hlt]
    · have hlt' : ¬ ((n : Int) < 128) := by exact_mod_cast hlt
      have hm : ((n : Int)).emod (2 ^ 32) = (n : Int) :=
        Int.emod_eq_of_lt (by positivity) (by exact_mod_cast h32)
      have hdiv : ((n : Int)) / 128 = ((n / 128 : Nat) : Int) := by exact_mod_cast rfl
      have hX : (128 : Nat) ^ (f + 1 + 1) = 128 * 128 ^ (f + 1) := by ring
      have hrec := ih (n / 128) (by omega) (by omega)
      have hbyte : (((n : Int)).emod 128 + 128).toNat = n % 128 + 128 := by
        have h : ((n : Int)).emod 128 = ((n % 128 : Nat) : Int) := by exact_mod_cast rfl
        rw [h]
        omega
      simp only [encodeVarintGo, varintSpecGo, if_neg hlt', if_neg hlt, hm, hdiv, hbyte, hrec]

/-- C9 (amended).  `encodeVarint` raises no error on a negative argument: the
loop guard is false for every negative number, so the single byte `n & 0xff`
(the nonnegative residue mod 256) is emitted.  For non-negative arguments
below 2^32 it emits 7-bit groups least-significant first with the high bit
set on every byte but the last, i.e. it agrees with the spec-side
`varintSpec`.  (At 2^32 and beyond the `>>>` coercion truncates and the
7-bit-group reading fails, see the counterexample.) -/
theorem encodeVarint_spec :
    (∀ n : Int, n < 0 → encodeVarint n = [(n.emod 256).toNat]) ∧
    (∀ n : Nat, n < 2 ^ 32 → encodeVarint (n : Int) = varintSpec n) := by
  constructor
  · intro n hn
    unfold encodeVarint encodeVarintGo
    rw [if_pos (by omega)]
  · intro n hn
    unfold encodeVarint varintSpec
    refine encodeVarintGo_eq_varintSpecGo 64 n hn (lt_of_lt_of_le hn ?_)
    have h : (128 : Nat) ^ 65 = 2 ^ 455 := by
      rw [show (128 : Nat) = 2 ^ 7 from rfl, ← pow_mul]
    rw [h]
    exact Nat.pow_le_pow_right (by norm_num) (by norm_num)

/-- Counterexample to C9 as stated: `encodeVarint(-1)` does not fail, it
returns the masked byte `[255]`; and at `2^32` the emitted bytes are not the
7-bit groups of the value. -/
theorem encodeVarint_counterexample :
    encodeVarint (-1) = [255] ∧ encodeVarint ((2 : Int) ^ 32) = [128, 0] ∧
      encodeVarint ((2 : Int) ^ 32) ≠ varintSpec (2 ^ 32) := by
  exact ⟨by decide, by decide, by decide⟩

/-- Witness for the amended C9 at `-5` and `300`. -/
theorem encodeVarint_spec_witness :
    ((-5 : Int) < 0 ∧ encodeVarint (-5) = [(((-5 : Int)).emod 256).toNat]) ∧
    ((300 : Nat) < 2 ^ 32 ∧ encodeVarint ((300 : Nat) : Int) = varintSpec 300) :=
  ⟨⟨by decide, encodeVarint_spec.1 (-5) (by decide)⟩,
    ⟨by decide, encodeVarint_spec.2 300 (by decide)⟩⟩

/-! ## The hex round-trip -/

/-- Parsing the two hex characters of a byte recovers the byte. -/
theorem hexPairs_byteHexChars : ∀ b, b < 256 → hexPairs (byteHexChars b) = [b] := by
  decide

/-- The hex rendering of a byte is exactly two characters. -/
theorem byteHexChars_pair (b : Nat) : ∃ c1 c2, byteHexChars b = [c1, c2] := by
  unfold byteHexChars
  split
  · exact ⟨_, _, rfl⟩
  · exact ⟨_, _, rfl⟩

/-- `hexToBytes` inverts `bytesToHex` on byte lists. -/
theorem hexBytesOf_bytesToHex (bytes : List Nat) (hb : ∀ b ∈ bytes, b < 256) :
    hexBytesOf (bytesToHex bytes) = bytes := by
  induction bytes with
  | nil => rfl
  | cons b rest ih =>
    obtain ⟨c1, c2, hc⟩ := byteHexChars_pair b
    have hpair : hexPairs (byteHexChars b) = [b] :=
      hexPairs_byteHexChars b (hb b (by simp))
    rw [hc] at hpair
    have hrest := ih (fun x hx => hb x (by simp [hx]))
    show hexPairs ((List.map byteHexChars (b :: rest)).flatten) = b :: rest
    simp only [List.map_cons, List.flatten_cons, hc]
    show jsParseIntPair c1 c2 :: hexPairs ((List.map byteHexChars rest).flatten) = b :: rest
    have hb' : jsParseIntPair c1 c2 = b := by
      simpa [hexPairs] using hpair
    have hrest' : hexPairs ((List.map byteHexChars rest).flatten) = rest := hrest
    rw [hb', hrest']

/-- Every byte of a Keccak digest is below 256. -/
theorem keccak256Digest_lt (msg : List Nat) : ∀ b ∈ keccak256Digest msg, b < 256 := by
  intro b hb
  simp only [keccak256Digest, List.mem_flatten, List.mem_map, laneBytes] at hb
  obtain ⟨bl, ⟨x, _, rfl⟩, hbl⟩ := hb
  simp only [List.mem_map] at hbl
  obtain ⟨j, _, rfl⟩ := hbl
  exact Nat.mod_lt _ (by norm_num)

/-! ## C5: the address layout -/

/-- C5.  For every 32-byte public key, the address is the block-Base58
encoding of `varint(0x198004) ++ pk ++ checksum`, the checksum being the
first 4 bytes of the Keccak-256 digest of `varint(0x198004) ++ pk`, with the
varint in 7-bit little-endian-group form. -/
theorem publicKeyToAddress_spec (pk : List Nat) (_hlen : pk.length = 32) :
    publicKeyToAddress pk =
      base58Encode (varintSpec 0x198004 ++ pk ++
        (keccak256Digest (varintSpec 0x198004 ++ pk)).take 4) := by
  have hv : encodeVarint 0x198004 = varintSpec 0x198004 := by decide
  simp only [publicKeyToAddress, keccak256]
  rw [hv, hexBytesOf_bytesToHex _ (keccak256Digest_lt _), List.append_assoc]

/-- Witness for C5 at the all-zero public key. -/
theorem publicKeyToAddress_spec_witness :
    (List.replicate 32 0).length = 32 ∧
      publicKeyToAddress (List.replicate 32 0) =
        base58Encode (varintSpec 0x198004 ++ List.replicate 32 0 ++
          (keccak256Digest (varintSpec 0x198004 ++ List.replicate 32 0)).take 4) :=
  ⟨by decide, publicKeyToAddress_spec (List.replicate 32 0) (by decide)⟩

/-! ## C7: the Base58 block width invariant -/

theorem b58DigitsLE_len : ∀ (fuel num : Nat), (b58DigitsLE fuel num).length ≤ fuel := by
  intro fuel
  induction fuel with
  | zero => intro num; simp [b58DigitsLE]
  | succ f ih =>
    intro num
    by_cases h : num = 0
    · simp [b58DigitsLE, h]
    · simp only [b58DigitsLE, if_neg h, List.length_cons]
      exact Nat.succ_le_succ (ih (num / 58))

/-- One block always encodes to exactly the tabulated width. -/
theorem encodeBlock_length (block : List Nat) :
    (encodeBlock block).length = ENCODED_BLOCK_SIZES.getD block.length 0 := by
  unfold encodeBlock
  have hds := b58DigitsLE_len (ENCODED_BLOCK_SIZES.getD block.length 0)
    (beNat block % 58 ^ ENCODED_BLOCK_SIZES.getD block.length 0)
  simp only [List.length_append, List.length_replicate, List.length_map, List.length_reverse]
  omega

theorem chunks_encode_length :
    ∀ (fuel : Nat) (l : List Nat), l.length ≤ fuel →
      (((chunksOf 8 fuel l).map encodeBlock).flatten).length =
        l.length / 8 * 11 + ENCODED_BLOCK_SIZES.getD (l.length % 8) 0 := by
  intro fuel
  induction fuel with
  | zero =>
    intro l hl
    have : l = [] := List.eq_nil_of_length_eq_zero (by omega)
    subst this
    rfl
  | succ f ih =>
    intro l hl
    cases l with
    | nil => rfl
    | cons a l' =>
      simp only [chunksOf, List.map_cons, List.flatten_cons, List.length_append]
      rw [encodeBlock_length, ih ((a :: l').drop 8) (by rw [List.length_drop]; omega)]
      rw [List.length_take, List.length_drop]
      rcases Nat.lt_or_ge ((a :: l').length) 8 with hc | hc
      · rw [min_eq_right (by omega)]
        have h0 : (a :: l').length - 8 = 0 := by omega
        have h1 : (a :: l').length / 8 = 0 := by omega
        have h2 : (a :: l').length % 8 = (a :: l').length := by omega
        rw [h0, h1, h2]
        have h3 : ENCODED_BLOCK_SIZES.getD (0 % 8) 0 = 0 := rfl
        rw [h3]
        omega
      · rw [min_eq_left hc]
        have h8 : ENCODED_BLOCK_SIZES.getD 8 0 = 11 := rfl
        have hmod : ((a :: l').length - 8) % 8 = (a :: l').length % 8 := by omega
        rw [h8, hmod]
        omega

/-- C7.  The encoded length is `floor(n/8)*11 + [0,2,3,5,6,7,9,10,11][n mod 8]`
for a buffer of `n` bytes, and each block of `N` bytes encodes to exactly
`[0,2,3,5,6,7,9,10,11][N]` characters. -/
theorem base58_block_width (buffer : List Nat) :
    (base58Encode buffer).length =
      buffer.length / 8 * 11 + ENCODED_BLOCK_SIZES.getD (buffer.length % 8) 0 ∧
    ∀ block : List Nat, (encodeBlock block).length =
      ENCODED_BLOCK_SIZES.getD block.length 0 := by
  constructor
  · show (((chunksOf 8 buffer.length buffer).map encodeBlock).flatten).length = _
    exact chunks_encode_length buffer.length buffer (le_refl _)
  · exact encodeBlock_length

/-! ## C3: the address validator -/

/-- C3 (code bug).  `isValidWalletAddress` returns `false` on every input:
after a successful decode the source reads `prefix[2]` from the two-byte
slice `decoded.slice(0, 2)`, which is `undefined` and never equal to `0x04`
(and the hash it would compare against afterwards, `cn_fast_hash`, is not
defined anywhere in the repository).  In particular no address produced by
`publicKeyToAddress` validates. -/
theorem isValidWalletAddress_false :
    ∀ address : String, isValidWalletAddress address = false := by
  intro address
  simp only [isValidWalletAddress]
  by_cases h1 : address = emptyString
  · rw [if_pos h1]
  · rw [if_neg h1]
    by_cases h2 : ¬ address.startsWith pasMarker
    · rw [if_pos h2]
    · rw [if_neg h2]
      by_cases h3 : address.length < 50 ∨ 100 < address.length
      · rw [if_pos h3]
      · rw [if_neg h3]
        cases hdec : bs58decode address with
        | none => rfl
        | some decoded =>
          show (if decoded.length < 38 then false
            else
              if (List.take 2 decoded)[0]? ≠ some 25 ∨ (List.take 2 decoded)[1]? ≠ some 128 ∨
                  (List.take 2 decoded)[2]? ≠ some 4 then false
              else
                match cnFastHashRef with
                | none => false
                | some h =>
                  List.take 4 (List.drop 34 decoded) == List.take 4 (h (List.take 34 decoded))) =
            false
          by_cases h4 : decoded.length < 38
          · rw [if_pos h4]
          · rw [if_neg h4]
            rw [if_pos ?_]
            refine Or.inr (Or.inr ?_)
            have hnone : (List.take 2 decoded)[2]? = none := by
              rw [List.getElem?_eq_none]
              rw [List.length_take]
              omega
            rw [hnone]
            simp

/-! ## C6: `importFromPrivateKey` accepts every 32-byte seed -/

theorem hexPairs_length : ∀ l : List Char, (hexPairs l).length = (l.length + 1) / 2 := by
  intro l
  match l with
  | [] => rfl
  | [c] => simp [hexPairs]
  | c1 :: c2 :: rest =>
    have ih := hexPairs_length rest
    simp only [hexPairs, List.length_cons, ih]
    omega

/-- The keypair derivation succeeds on any buffer of at least 32 bytes and
reduces the scalar only when asked to. -/
theorem generateEd25519Keypair_ok (bytes : List Nat) (ev : Bool) (h : 32 ≤ bytes.length) :
    generateEd25519Keypair bytes ev =
      .ok (pointToBytes (mulBase
        (if ev ∧ curveOrder ≤ leScalar bytes then leScalar bytes % curveOrder
          else leScalar bytes)), bytes) := by
  simp only [generateEd25519Keypair]
  rw [if_neg (by omega)]

/-- C6 (spec-modelled base-point multiplication).  `importFromPrivateKey`
accepts every 64-character hex seed and returns a complete `WalletData`: the
little-endian scalar is passed to the base-point multiplication exactly as
read — no reduction mod the curve order and no validation appear anywhere in
the result. -/
theorem importFromPrivateKey_accepts (s : String) (hlen : s.length = 64)
    (_hhex : s.toList.all (fun c => (hexDigitVal c).isSome) = true) :
    ∃ m, privateKeyToMnemonic (hexBytesOf s) = .ok m ∧
      importFromPrivateKey s = .ok
        ⟨publicKeyToAddress (pointToBytes (mulBase (leScalar (hexBytesOf s)))), s,
          bytesToHex (pointToBytes (mulBase (leScalar (hexBytesOf s)))), m⟩ := by
  have htl : s.toList.length = 64 := hlen
  have hblen : (hexBytesOf s).length = 32 := by
    unfold hexBytesOf
    rw [hexPairs_length, htl]
  have hkp := generateEd25519Keypair_ok (hexBytesOf s) false (by omega)
  rw [if_neg (by simp)] at hkp
  refine ⟨_, privateKeyToMnemonic_ok (hexBytesOf s) hblen, ?_⟩
  simp only [importFromPrivateKey, hexToBytes]
  rw [if_neg (by omega)]
  show (Except.ok (hexBytesOf s) >>= _) = _
  rw [except_bind_ok]
  rw [hkp, except_bind_ok]
  rw [privateKeyToMnemonic_ok (hexBytesOf s) hblen, except_bind_ok]

/-- Witness for C6 at the all-`f` seed, whose scalar 2^256 - 1 exceeds the
curve order. -/
theorem importFromPrivateKey_accepts_witness :
    (String.mk (List.replicate 64 'f')).length = 64 ∧
      curveOrder ≤ leScalar (hexBytesOf (String.mk (List.replicate 64 'f'))) ∧
      (∃ m, privateKeyToMnemonic (hexBytesOf (String.mk (List.replicate 64 'f'))) = .ok m ∧
        importFromPrivateKey (String.mk (List.replicate 64 'f')) = .ok
          ⟨publicKeyToAddress (pointToBytes (mulBase
              (leScalar (hexBytesOf (String.mk (List.replicate 64 'f')))))),
            String.mk (List.replicate 64 'f'),
            bytesToHex (pointToBytes (mulBase
              (leScalar (hexBytesOf (String.mk (List.replicate 64 'f')))))), m⟩) :=
  ⟨by decide, by decide,
    importFromPrivateKey_accepts (String.mk (List.replicate 64 'f')) (by decide) (by decide)⟩

/-! ## C8: the rejection-sampling loop of `generateWallet` -/

theorem genLoop_all_invalid (draws : Nat → List Nat) :
    ∀ (fuel a : Nat), a + fuel = 1000 → a < 1000 →
      (∀ i, i < 999 → a ≤ i → curveOrder ≤ leScalar (draws i)) →
      (genLoop draws fuel a).2 = 1000 := by
  intro fuel
  induction fuel with
  | zero => intro a h1 h2 _; omega
  | succ f ih =>
    intro a h1 h2 hinv
    simp only [genLoop]
    by_cases hcond : curveOrder ≤ leScalar (draws a) ∧ a + 1 < 1000
    · rw [if_pos hcond]
      exact ih (a + 1) (by omega) (by omega) (fun i hi hai => hinv i hi (by omega))
    · rw [if_neg hcond]
      by_cases ha : a < 999
      · exact absurd ⟨hinv a ha (le_refl a), by omega⟩ hcond
      · show a + 1 = 1000
        omega

theorem genLoop_first_valid (draws : Nat → List Nat) :
    ∀ (fuel a j : Nat), a + fuel = 1000 → a ≤ j → j < 999 →
      leScalar (draws j) < curveOrder →
      (∀ i, a ≤ i → i < j → curveOrder ≤ leScalar (draws i)) →
      genLoop draws fuel a = (draws j, j + 1) := by
  intro fuel
  induction fuel with
  | zero => intro a j h1 h2 h3 _ _; omega
  | succ f ih =>
    intro a j h1 h2 h3 hval hinv
    simp only [genLoop]
    by_cases haj : a = j
    · subst haj
      rw [if_neg (by rintro ⟨hc1, -⟩; omega)]
    · have haj' : a < j := by omega
      rw [if_pos ⟨hinv a (le_refl a) haj', by omega⟩]
      exact ih (a + 1) j (by omega) (by omega) h3 hval (fun i h1i h2i => hinv i (by omega) h2i)

/-- The post-loop wallet construction succeeds on a 32-byte draw. -/
theorem walletFromSeed_ok (bytes : List Nat) (h : bytes.length = 32) :
    ∃ w, walletFromSeed bytes = .ok w := by
  simp only [walletFromSeed]
  rw [privateKeyToMnemonic_ok bytes h, except_bind_ok,
    generateEd25519Keypair_ok bytes true (by omega), except_bind_ok]
  exact ⟨_, rfl⟩

/-- C8 (amended).  `generateWallet` fails with the entropy-exhaustion error
exactly when each of the first 999 draws is out of range — even when the
1000th draw is valid, since the `attempts >= 1000` test after the loop
discards it; when one of the first 999 draws is in range it succeeds and
builds the wallet from the first such draw. -/
theorem generateWallet_spec (draws : Nat → List Nat)
    (hdr : ∀ i, (draws i).length = 32) :
    ((∀ i, i < 999 → curveOrder ≤ leScalar (draws i)) →
      generateWallet draws = .error .entropyExhausted) ∧
    (∀ j, j < 999 → leScalar (draws j) < curveOrder →
      (∀ i, i < j → curveOrder ≤ leScalar (draws i)) →
      (∃ w, walletFromSeed (draws j) = .ok w) ∧
        generateWallet draws = walletFromSeed (draws j)) := by
  constructor
  · intro hall
    have hgl := genLoop_all_invalid draws 1000 0 rfl (by omega) (fun i hi _ => hall i hi)
    simp only [generateWallet]
    rw [if_pos (by omega)]
  · intro j hj hval hmin
    have hgl := genLoop_first_valid draws 1000 0 j rfl (by omega) hj hval
      (fun i _ h2 => hmin i h2)
    refine ⟨walletFromSeed_ok (draws j) (hdr j), ?_⟩
    simp only [generateWallet]
    rw [hgl]
    rw [if_neg (show ¬ 1000 ≤ j + 1 by omega)]

/-- A draw stream whose first 999 draws are out of range while the 1000th is
valid. -/
def draws999 : Nat → List Nat :=
  fun i => if i < 999 then List.replicate 32 255 else List.replicate 32 1

set_option maxHeartbeats 4000000 in
/-- Counterexample to C8 as stated: the 1000th attempt (index 999) carries a
valid scalar, yet `generateWallet` fails with the entropy-exhaustion error. -/
theorem generateWallet_counterexample :
    generateWallet draws999 = .error .entropyExhausted ∧
      leScalar (draws999 999) < curveOrder := by
  constructor
  · decide
  · decide

/-- An everywhere-invalid draw stream. -/
def drawsHigh : Nat → List Nat := fun _ => List.replicate 32 255

/-- Witness for the amended C8: with every draw out of range the generator
reports entropy exhaustion. -/
theorem generateWallet_spec_witness :
    (∀ i, (drawsHigh i).length = 32) ∧
      (∀ i, i < 999 → curveOrder ≤ leScalar (drawsHigh i)) ∧
      generateWallet drawsHigh = .error .entropyExhausted := by
  have h1 : ∀ i, (drawsHigh i).length = 32 := fun i => by simp [drawsHigh]
  have hs : curveOrder ≤ leScalar (List.replicate 32 255) := by decide
  have h2 : ∀ i, i < 999 → curveOrder ≤ leScalar (drawsHigh i) := fun i _ => hs
  exact ⟨h1, h2, (generateWallet_spec drawsHigh h1).1 h2⟩

end Pastella
